import Mathlib

/-!
# collection_loop_benchmark.cc: allocation accounting and the five filter loops

A shallow embedding of `collection_loop_benchmark.cc`.

Data model (LP64): `int` is a 32-bit two's complement integer, `std::size_t`
and `unsigned long long` are 64-bit unsigned integers.  Values of `int` are
carried as `Int`, sizes and the two static counters as `Nat`; the counters are
reduced modulo `2 ^ 64` at every update, as unsigned arithmetic does.

What is outside the source file is modelled as its environment:

* `std::malloc` is an oracle: a function from the calls made so far and the
  requested size to the pointer handed back (`nullptr` when it has no memory);
* `std::vector<int>` is its element list, its capacity and its storage block;
  `reserve` obtains one block of `n * sizeof(int)` bytes through `operator new`
  when `n` exceeds the capacity, `push_back` obtains a block only when size
  equals capacity, the destructor only releases.  A request above `max_size()`
  raises `std::length_error`.  The replaced `operator new` hands a null block
  to the vector when `std::malloc` has no memory; a write of an element into
  a null block kills the process (`segmentation_fault`);
* `benchmark::Counter` holds a `double`: an `unsigned long long` stored in one
  is rounded to the nearest `double`, and `state.counters[...]` creates its
  entry through `operator new`;
* an iterator is a position of the vector (`begin()` is `0`, `end()` is
  `size()`);
* `for (auto _ : state)` runs its body `k` times, `k` chosen by the library.

The process state carries an observation log (`trace`): every call of
`std::malloc` and `std::free`, every bounds-checked read, every evaluation of
the evenness test and every `push_back`.  The log is write-only: no modelled
operation reads it, except the `malloc` oracle.
-/

namespace CollectionLoop

/-- Addresses; `nullptr` is address zero. -/
abbrev Ptr := Nat

/-- The null pointer. -/
def nullptr : Ptr := 0

/-- Number of values of `unsigned long long` and of `std::size_t`. -/
def ULLONG_RANGE : Nat := 2 ^ 64

/-- Largest value of `int`. -/
def INT_MAX : Int := 2 ^ 31 - 1

/-- The size in bytes of an `int`. -/
def sizeof_int : Nat := 4

/-- Observable steps recorded in the log of a process. -/
inductive Event where
  | malloc (size : Nat) (ret : Ptr)
  | free (ptr : Ptr)
  | at_ (i : Nat)
  | test (value : Int)
  | push_back (value : Int)
  deriving DecidableEq, Repr

/-- The ways a modelled call can end other than by returning: the three
exceptions, and the death of the process on a write through the null pointer. -/
inductive Raised where
  | bad_alloc
  | out_of_range
  | length_error
  | segmentation_fault
  deriving DecidableEq, Repr

/-- The `std::malloc` oracle: the log so far and the size give the pointer. -/
abbrev Libc := List Event → Nat → Ptr

/-- The two file-scope counters (lines 38-39) and the observation log. -/
structure Process where
  allocationCount : Nat
  allocatedBytes : Nat
  trace : List Event
  deriving DecidableEq, Repr

/-- Append one event to the observation log. -/
def Process.observe (p : Process) (e : Event) : Process :=
  { p with trace := p.trace ++ [e] }

/-- The replaced `operator new` (lines 41-45): count, add the size, return
what `std::malloc` returns.  No path of it raises. -/
def operator_new (malloc : Libc) (p : Process) (size : Nat) :
    Except Raised (Ptr × Process) :=
  let p := { p with allocationCount := (p.allocationCount + 1) % ULLONG_RANGE }
  let p := { p with allocatedBytes := (p.allocatedBytes + size) % ULLONG_RANGE }
  let ret := malloc p.trace size
  .ok (ret, p.observe (.malloc size ret))

/-- The replaced `operator delete` (line 47): `std::free(p)`. -/
def operator_delete (p : Process) (ptr : Ptr) : Process :=
  p.observe (.free ptr)

/-- The replaced `operator new[]` (lines 49-53). -/
def operator_new_array (malloc : Libc) (p : Process) (size : Nat) :
    Except Raised (Ptr × Process) :=
  let p := { p with allocationCount := (p.allocationCount + 1) % ULLONG_RANGE }
  let p := { p with allocatedBytes := (p.allocatedBytes + size) % ULLONG_RANGE }
  let ret := malloc p.trace size
  .ok (ret, p.observe (.malloc size ret))

/-- The replaced `operator delete[]` (line 55): `std::free(p)`. -/
def operator_delete_array (p : Process) (ptr : Ptr) : Process :=
  p.observe (.free ptr)

/-- Conversion of a `std::size_t` to `int` (`values.push_back(i)`, line 69). -/
def size_t_to_int (i : Nat) : Int :=
  if i % 2 ^ 32 < 2 ^ 31 then ((i % 2 ^ 32 : Nat) : Int)
  else ((i % 2 ^ 32 : Nat) : Int) - 2 ^ 32

/-- Conversion of the `int64_t` argument `state.range(0)` to `std::size_t`
(line 64). -/
def int64_to_size_t (x : Int) : Nat :=
  (x % (2 ^ 64 : Int)).toNat

/-- A `std::vector<int>`: storage block, elements, capacity. -/
structure IntVector where
  storage : Ptr
  data : List Int
  capacity : Nat
  deriving DecidableEq, Repr

namespace IntVector

/-- The member `max_size()` of `std::vector<int>` (LP64, libstdc++):
`PTRDIFF_MAX / sizeof(int)`. -/
def max_size : Nat := 2 ^ 61 - 1

/-- A default-constructed vector: `std::vector<int> result;`. -/
def empty : IntVector := { storage := nullptr, data := [], capacity := 0 }

/-- The member `size()`. -/
def size (v : IntVector) : Nat := v.data.length

/-- The member `begin()`, as a position. -/
def begin_ (_v : IntVector) : Nat := 0

/-- The member `end()`, as a position. -/
def end_ (v : IntVector) : Nat := v.size

/-- The member `at(i)`: bounds-checked read, `std::out_of_range` otherwise. -/
def at_ (v : IntVector) (i : Nat) (p : Process) : Except Raised (Int × Process) :=
  let p := p.observe (.at_ i)
  if h : i < v.data.length then .ok (v.data[i], p) else .error .out_of_range

/-- The member `clear()`: the elements go, the capacity stays. -/
def clear (v : IntVector) : IntVector := { v with data := [] }

/-- Give the storage block back, when there is one. -/
def deallocate (v : IntVector) (p : Process) : Process :=
  if v.storage = nullptr then p else operator_delete p v.storage

/-- Move the elements into a fresh block of capacity `n`, obtained through
`operator new`; moving elements into a null block kills the process. -/
def reallocate (malloc : Libc) (v : IntVector) (n : Nat) (p : Process) :
    Except Raised (IntVector × Process) :=
  match operator_new malloc p (n * sizeof_int) with
  | .error e => .error e
  | .ok (ptr, p) =>
    if ptr = nullptr ∧ 0 < v.data.length then .error .segmentation_fault
    else .ok ({ storage := ptr, data := v.data, capacity := n }, v.deallocate p)

/-- The member `reserve(n)`: `std::length_error` above `max_size()`, a fresh
block when `n` exceeds the capacity, nothing otherwise. -/
def reserve (malloc : Libc) (v : IntVector) (n : Nat) (p : Process) :
    Except Raised (IntVector × Process) :=
  if max_size < n then .error .length_error
  else if v.capacity < n then v.reallocate malloc n p
  else .ok (v, p)

/-- The member `push_back(x)`: write `x` behind the last element when there is
room, otherwise grow the block first (to `size + max(size, 1)` elements, at
most `max_size()`; `std::length_error` when the size is `max_size()` already).
The write of `x` into a null block kills the process. -/
def push_back (malloc : Libc) (v : IntVector) (x : Int) (p : Process) :
    Except Raised (IntVector × Process) :=
  let p := p.observe (.push_back x)
  if v.size < v.capacity then
    if v.storage = nullptr then .error .segmentation_fault
    else .ok ({ v with data := v.data ++ [x] }, p)
  else if v.size = max_size then .error .length_error
  else
    match v.reallocate malloc (min (v.size + max v.size 1) max_size) p with
    | .error e => .error e
    | .ok (v, p) =>
      if v.storage = nullptr then .error .segmentation_fault
      else .ok ({ v with data := v.data ++ [x] }, p)

/-- The destructor. -/
def destroy (v : IntVector) (p : Process) : Process := v.deallocate p

end IntVector

/-- The fixture (lines 57-74). -/
structure CollectionLoopFixture where
  loopIterations : Nat
  values : IntVector
  deriving DecidableEq, Repr

/-- The filling loop of `SetUp` (lines 68-70), from index `i` on. -/
def SetUp_for (malloc : Libc) (loopIterations : Nat) (i : Nat) (values : IntVector)
    (p : Process) : Except Raised (IntVector × Process) :=
  if i < loopIterations then
    match values.push_back malloc (size_t_to_int i) p with
    | .error e => .error e
    | .ok (values, p) => SetUp_for malloc loopIterations (i + 1) values p
  else .ok (values, p)
termination_by loopIterations - i

/-- The member `SetUp` (lines 63-71); `range0` is `state.range(0)`. -/
def SetUp (malloc : Libc) (fx : CollectionLoopFixture) (range0 : Int) (p : Process) :
    Except Raised (CollectionLoopFixture × Process) :=
  let loopIterations := int64_to_size_t range0
  let values := fx.values.clear
  match values.reserve malloc loopIterations p with
  | .error e => .error e
  | .ok (values, p) =>
    match SetUp_for malloc loopIterations 0 values p with
    | .error e => .error e
    | .ok (values, p) => .ok ({ loopIterations := loopIterations, values := values }, p)

/-- The member `TearDown` (line 73). -/
def TearDown (fx : CollectionLoopFixture) : CollectionLoopFixture :=
  { fx with values := fx.values.clear }

/-- The inner loop of `loop` (lines 86-91), from index `i` on. -/
def loop_for (malloc : Libc) (values : IntVector) (size : Nat) (i : Nat)
    (result : IntVector) (p : Process) : Except Raised (IntVector × Process) :=
  if i < size then
    match values.at_ i p with
    | .error e => .error e
    | .ok (value, p) =>
      let p := p.observe (.test value)
      if Int.tmod value 2 = 0 then
        match result.push_back malloc value p with
        | .error e => .error e
        | .ok (result, p) => loop_for malloc values size (i + 1) result p
      else loop_for malloc values size (i + 1) result p
  else .ok (result, p)
termination_by size - i

/-- One pass of the `for (auto _ : state)` loop of `loop` (lines 81-94): the
result as `DoNotOptimize` sees it, and the process after `result` is
destroyed. -/
def loop_iteration (malloc : Libc) (fx : CollectionLoopFixture) (p : Process) :
    Except Raised (List Int × Process) :=
  let values := fx.values
  let size := values.size
  let result := IntVector.empty
  match result.reserve malloc size p with
  | .error e => .error e
  | .ok (result, p) =>
    match loop_for malloc values size 0 result p with
    | .error e => .error e
    | .ok (result, p) => .ok (result.data, result.destroy p)

/-- The range-based loop of `enhancedLoop` (lines 121-125) over the elements
still to visit. -/
def enhancedLoop_for (malloc : Libc) : List Int → IntVector → Process →
    Except Raised (IntVector × Process)
  | [], result, p => .ok (result, p)
  | value :: rest, result, p =>
    let p := p.observe (.test value)
    if Int.tmod value 2 = 0 then
      match result.push_back malloc value p with
      | .error e => .error e
      | .ok (result, p) => enhancedLoop_for malloc rest result p
    else enhancedLoop_for malloc rest result p

/-- One pass of the `for (auto _ : state)` loop of `enhancedLoop`
(lines 117-128). -/
def enhancedLoop_iteration (malloc : Libc) (fx : CollectionLoopFixture) (p : Process) :
    Except Raised (List Int × Process) :=
  let values := fx.values
  let result := IntVector.empty
  match result.reserve malloc values.size p with
  | .error e => .error e
  | .ok (result, p) =>
    match enhancedLoop_for malloc values.data result p with
    | .error e => .error e
    | .ok (result, p) => .ok (result.data, result.destroy p)

/-- The inner loop of `iterator` (lines 154-159): `values.end()` is fetched
again at every test. -/
def iterator_for (malloc : Libc) (values : IntVector) (it : Nat) (hit : it ≤ values.end_)
    (result : IntVector) (p : Process) : Except Raised (IntVector × Process) :=
  if hne : it ≠ values.end_ then
    have hlt : it < values.data.length := lt_of_le_of_ne hit hne
    let value := values.data[it]
    let p := p.observe (.test value)
    if Int.tmod value 2 = 0 then
      match result.push_back malloc value p with
      | .error e => .error e
      | .ok (result, p) => iterator_for malloc values (it + 1) hlt result p
    else iterator_for malloc values (it + 1) hlt result p
  else .ok (result, p)
termination_by values.end_ - it
decreasing_by
  all_goals simp_wf
  all_goals omega

/-- One pass of the `for (auto _ : state)` loop of `iterator` (lines 150-162). -/
def iterator_iteration (malloc : Libc) (fx : CollectionLoopFixture) (p : Process) :
    Except Raised (List Int × Process) :=
  let values := fx.values
  let result := IntVector.empty
  match result.reserve malloc values.size p with
  | .error e => .error e
  | .ok (result, p) =>
    match iterator_for malloc values values.begin_ (Nat.zero_le _) result p with
    | .error e => .error e
    | .ok (result, p) => .ok (result.data, result.destroy p)

/-- The inner loop of `iteratorConstEnd` (lines 190-195): the end position is
the one fetched before the loop. -/
def iteratorConstEnd_for (malloc : Libc) (values : IntVector) (end_ : Nat)
    (hend : end_ ≤ values.data.length) (it : Nat) (hit : it ≤ end_)
    (result : IntVector) (p : Process) : Except Raised (IntVector × Process) :=
  if hne : it ≠ end_ then
    have hlt : it < values.data.length := lt_of_lt_of_le (lt_of_le_of_ne hit hne) hend
    let value := values.data[it]
    let p := p.observe (.test value)
    if Int.tmod value 2 = 0 then
      match result.push_back malloc value p with
      | .error e => .error e
      | .ok (result, p) =>
        iteratorConstEnd_for malloc values end_ hend (it + 1) (lt_of_le_of_ne hit hne) result p
    else iteratorConstEnd_for malloc values end_ hend (it + 1) (lt_of_le_of_ne hit hne) result p
  else .ok (result, p)
termination_by end_ - it
decreasing_by
  all_goals simp_wf
  all_goals omega

/-- One pass of the `for (auto _ : state)` loop of `iteratorConstEnd`
(lines 185-198). -/
def iteratorConstEnd_iteration (malloc : Libc) (fx : CollectionLoopFixture) (p : Process) :
    Except Raised (List Int × Process) :=
  let values := fx.values
  let result := IntVector.empty
  match result.reserve malloc values.size p with
  | .error e => .error e
  | .ok (result, p) =>
    let end_ := values.end_
    match iteratorConstEnd_for malloc values end_ (Nat.le_refl _) values.begin_
        (Nat.zero_le _) result p with
    | .error e => .error e
    | .ok (result, p) => .ok (result.data, result.destroy p)

/-- The algorithm `std::for_each(first, last, f)` over positions of `values`:
`for (; first != last; ++first) f(*first);` with the state `f` acts on passed
along. -/
def for_each {σ : Type} (values : IntVector) (last : Nat) (hlast : last ≤ values.data.length)
    (first : Nat) (hfirst : first ≤ last) (f : Int → σ → Except Raised σ) (s : σ) :
    Except Raised σ :=
  if hne : first ≠ last then
    have hlt : first < values.data.length :=
      lt_of_lt_of_le (lt_of_le_of_ne hfirst hne) hlast
    match f values.data[first] s with
    | .error e => .error e
    | .ok s => for_each values last hlast (first + 1) (lt_of_le_of_ne hfirst hne) f s
  else .ok s
termination_by last - first
decreasing_by
  all_goals simp_wf
  all_goals omega

/-- The closure of `forEach` (lines 224-228); it holds `result` by reference. -/
def forEach_lambda (malloc : Libc) (value : Int) (s : IntVector × Process) :
    Except Raised (IntVector × Process) :=
  let p := s.2.observe (.test value)
  if Int.tmod value 2 = 0 then s.1.push_back malloc value p else .ok (s.1, p)

/-- One pass of the `for (auto _ : state)` loop of `forEach` (lines 220-231). -/
def forEach_iteration (malloc : Libc) (fx : CollectionLoopFixture) (p : Process) :
    Except Raised (List Int × Process) :=
  let values := fx.values
  let result := IntVector.empty
  match result.reserve malloc values.size p with
  | .error e => .error e
  | .ok (result, p) =>
    match for_each values values.end_ (Nat.le_refl _) values.begin_ (Nat.zero_le _)
        (forEach_lambda malloc) (result, p) with
    | .error e => .error e
    | .ok (result, p) => .ok (result.data, result.destroy p)

/-- The statement `for (auto _ : state)`: `k` passes, one after the other. -/
def run_state (iteration : Process → Except Raised (List Int × Process)) :
    Nat → Process → Except Raised Process
  | 0, p => .ok p
  | k + 1, p =>
    match iteration p with
    | .error e => .error e
    | .ok (_, p) => run_state iteration k p

/-- The two assignments that open every benchmark body (lines 77-78). -/
def reset (p : Process) : Process :=
  let p := { p with allocationCount := 0 }
  { p with allocatedBytes := 0 }

/-- The two values read at lines 97-98 (`finalAllocationCount`,
`finalAllocatedBytes`), under the names they are recorded under at lines
99-102, and the number of iterations run. -/
structure Counters where
  AllocCount : Nat
  AllocBytes : Nat
  iterations : Nat
  deriving DecidableEq, Repr

/-- The shape shared by the five benchmark bodies up to the read of the two
statics (lines 77-98 and their copies): reset, `k` passes, read.  The process
returned is the one at the read. -/
def benchmark_body (iteration : Process → Except Raised (List Int × Process)) (k : Nat)
    (p : Process) : Except Raised (Counters × Process) :=
  match run_state iteration k (reset p) with
  | .error e => .error e
  | .ok p =>
    let finalAllocationCount := p.allocationCount
    let finalAllocatedBytes := p.allocatedBytes
    .ok ({ AllocCount := finalAllocationCount, AllocBytes := finalAllocatedBytes,
           iterations := k }, p)

/-- The benchmark `loop` run for `k` iterations, up to the read of the two
statics (lines 76-98). -/
def CollectionLoopFixture_loop (malloc : Libc) (fx : CollectionLoopFixture) (k : Nat)
    (p : Process) : Except Raised (Counters × Process) :=
  benchmark_body (loop_iteration malloc fx) k p

/-- The benchmark `enhancedLoop` up to the read of the two statics (lines 111-132). -/
def CollectionLoopFixture_enhancedLoop (malloc : Libc) (fx : CollectionLoopFixture) (k : Nat)
    (p : Process) : Except Raised (Counters × Process) :=
  benchmark_body (enhancedLoop_iteration malloc fx) k p

/-- The benchmark `iterator` up to the read of the two statics (lines 145-166). -/
def CollectionLoopFixture_iterator (malloc : Libc) (fx : CollectionLoopFixture) (k : Nat)
    (p : Process) : Except Raised (Counters × Process) :=
  benchmark_body (iterator_iteration malloc fx) k p

/-- The benchmark `iteratorConstEnd` up to the read of the two statics (lines 179-202). -/
def CollectionLoopFixture_iteratorConstEnd (malloc : Libc) (fx : CollectionLoopFixture)
    (k : Nat) (p : Process) : Except Raised (Counters × Process) :=
  benchmark_body (iteratorConstEnd_iteration malloc fx) k p

/-- The benchmark `forEach` up to the read of the two statics (lines 215-235). -/
def CollectionLoopFixture_forEach (malloc : Libc) (fx : CollectionLoopFixture) (k : Nat)
    (p : Process) : Except Raised (Counters × Process) :=
  benchmark_body (forEach_iteration malloc fx) k p


/-- The size in bytes of a node of `state.counters`, a
`std::map<std::string, benchmark::Counter>` (LP64, libstdc++). -/
def sizeof_counter_node : Nat := 80

/-- The number of halvings that bring `n` below `2 ^ 53`: the binary exponent
of the last place of the `double` nearest to `n`. -/
def excess_bits : Nat → Nat → Nat
  | 0, _ => 0
  | fuel + 1, n => if n < 2 ^ 53 then 0 else excess_bits fuel (n / 2) + 1

/-- Conversion of an `unsigned long long` to `double` (round to nearest, ties
to even), as lines 99-102 do when they build a `benchmark::Counter`.  The
value of that `double` is a natural number, which is what is returned. -/
def to_double (n : Nat) : Nat :=
  let e := excess_bits 64 n
  let q := n / 2 ^ e
  let r := n % 2 ^ e
  if 2 * r < 2 ^ e then q * 2 ^ e
  else if 2 ^ e < 2 * r then (q + 1) * 2 ^ e
  else (q + q % 2) * 2 ^ e

/-- The content of `state.counters` when a benchmark body returns: the values
of the two `double`s; both entries carry `kAvgIterations`. -/
structure UserCounters where
  AllocCount : Nat
  AllocBytes : Nat
  deriving DecidableEq, Repr

/-- The statement `state.counters[name] = benchmark::Counter(value, ...)`: the
map gets a node for the new key through `operator new` and writes the entry
into it; the value stored is the `double` nearest to `value`. -/
def insert_counter (malloc : Libc) (value : Nat) (p : Process) :
    Except Raised (Nat × Process) :=
  match operator_new malloc p sizeof_counter_node with
  | .error e => .error e
  | .ok (ptr, p) =>
    if ptr = nullptr then .error .segmentation_fault else .ok (to_double value, p)

/-- The statement `for (auto _ : state)` on the benchmark object: every pass
reads `this->values` as the fixture holds it then. -/
def run_object (pass : CollectionLoopFixture → Process → Except Raised (List Int × Process)) :
    Nat → CollectionLoopFixture × Process → Except Raised (CollectionLoopFixture × Process)
  | 0, s => .ok s
  | k + 1, s =>
    match pass s.1 s.2 with
    | .error e => .error e
    | .ok (_, p) => run_object pass k (s.1, p)

/-- The shape shared by the five benchmark bodies, whole (lines 76-103 and
their copies): reset, `k` passes, read of the two statics, the two entries of
`state.counters`.  Returned are the entries, the fixture and the process as
the body leaves them. -/
def BenchmarkCase (malloc : Libc)
    (pass : CollectionLoopFixture → Process → Except Raised (List Int × Process)) (k : Nat)
    (fx : CollectionLoopFixture) (p : Process) :
    Except Raised (UserCounters × CollectionLoopFixture × Process) :=
  match run_object pass k (fx, reset p) with
  | .error e => .error e
  | .ok (fx, p) =>
    let finalAllocationCount := p.allocationCount
    let finalAllocatedBytes := p.allocatedBytes
    match insert_counter malloc finalAllocationCount p with
    | .error e => .error e
    | .ok (count, p) =>
      match insert_counter malloc finalAllocatedBytes p with
      | .error e => .error e
      | .ok (bytes, p) => .ok ({ AllocCount := count, AllocBytes := bytes }, fx, p)

/-- The pass functions of the five benchmark bodies, in the order of the source
file; each takes the fixture and the process state. -/
def five_mechanisms (malloc : Libc) :
    List (CollectionLoopFixture → Process → Except Raised (List Int × Process)) :=
  [loop_iteration malloc, enhancedLoop_iteration malloc, iterator_iteration malloc,
   iteratorConstEnd_iteration malloc, forEach_iteration malloc]

/-! ## Specification vocabulary

Functions used to state properties of the embedded code, sample inputs, and
the closed form of one pass. -/

/-- The evenness test of the five bodies, `value % 2 == 0` on `int`. -/
def even_test (value : Int) : Bool := decide (Int.tmod value 2 = 0)

/-- Events of a traversal without bounds-checked reads. -/
def scan_events : List Int → List Event
  | [] => []
  | value :: rest =>
    (if Int.tmod value 2 = 0 then [Event.test value, Event.push_back value]
      else [Event.test value]) ++ scan_events rest

/-- Events of the index loop when it is at index `i` with `rest` still to visit. -/
def loop_events : Nat → List Int → List Event
  | _, [] => []
  | i, value :: rest =>
    (if Int.tmod value 2 = 0 then [Event.at_ i, Event.test value, Event.push_back value]
      else [Event.at_ i, Event.test value]) ++ loop_events (i + 1) rest

/-- The process after one pass over `n` input elements whose traversal logs
`visit`, in closed form. -/
def pass_result (malloc : Libc) (n : Nat) (visit : List Event) (p : Process) : Process :=
  if 0 < n then
    { allocationCount := (p.allocationCount + 1) % ULLONG_RANGE
      allocatedBytes := (p.allocatedBytes + n * sizeof_int) % ULLONG_RANGE
      trace := p.trace ++ Event.malloc (n * sizeof_int) (malloc p.trace (n * sizeof_int)) :: visit ++
        (if malloc p.trace (n * sizeof_int) = nullptr then []
          else [Event.free (malloc p.trace (n * sizeof_int))]) }
  else { p with trace := p.trace ++ visit }

/-- Number of `std::malloc` calls in a stretch of the log: one per call of
`operator new` or `operator new[]`. -/
def malloc_calls : List Event → Nat
  | [] => 0
  | Event.malloc _ _ :: rest => malloc_calls rest + 1
  | _ :: rest => malloc_calls rest

/-- Sum of the sizes requested by the `std::malloc` calls in a stretch of the
log. -/
def malloc_bytes : List Event → Nat
  | [] => 0
  | Event.malloc size _ :: rest => malloc_bytes rest + size
  | _ :: rest => malloc_bytes rest

/-- The even integers of `[0, N)` in ascending order: `0, 2, ..., 2 * (⌈N/2⌉ - 1)`. -/
def evens (N : Nat) : List Int :=
  (List.range ((N + 1) / 2)).map (fun (j : Nat) => 2 * (j : Int))

/-- The allocations of one pass over `n` input elements: one when `n > 0`. -/
def pass_allocs (n : Nat) : Nat := if 0 < n then 1 else 0

/-- A call of one of the four replaced operators. -/
inductive HeapCall where
  | new (size : Nat)
  | new_array (size : Nat)
  | delete (ptr : Ptr)
  | delete_array (ptr : Ptr)
  deriving DecidableEq, Repr

/-- Make one call; the pointer an allocation returns stays with the caller. -/
def HeapCall.run (malloc : Libc) (p : Process) : HeapCall → Process
  | .new size =>
    match operator_new malloc p size with
    | .ok (_, p) => p
    | .error _ => p
  | .new_array size =>
    match operator_new_array malloc p size with
    | .ok (_, p) => p
    | .error _ => p
  | .delete ptr => operator_delete p ptr
  | .delete_array ptr => operator_delete_array p ptr

/-- Make a sequence of calls, first to last. -/
def run_calls (malloc : Libc) (p : Process) (calls : List HeapCall) : Process :=
  calls.foldl (HeapCall.run malloc) p

/-- Number of allocate calls in a sequence. -/
def allocate_calls : List HeapCall → Nat
  | [] => 0
  | .new _ :: rest => allocate_calls rest + 1
  | .new_array _ :: rest => allocate_calls rest + 1
  | _ :: rest => allocate_calls rest

/-- Sum of the sizes requested by the allocate calls in a sequence. -/
def requested_bytes : List HeapCall → Nat
  | [] => 0
  | .new size :: rest => requested_bytes rest + size
  | .new_array size :: rest => requested_bytes rest + size
  | _ :: rest => requested_bytes rest

/-- A sample `std::malloc` that always has memory: block number `k` is handed
out by the call that follows `k - 1` logged events. -/
def malloc_fresh : Libc := fun trace _ => trace.length + 1

/-- A `std::malloc` that has no memory left: every call yields `nullptr`. -/
def malloc_exhausted : Libc := fun _ _ => nullptr

/-- The process when `main` starts: both counters zero-initialised, nothing
logged. -/
def process_start : Process := { allocationCount := 0, allocatedBytes := 0, trace := [] }

/-- A freshly constructed fixture. -/
def fixture_start : CollectionLoopFixture := { loopIterations := 0, values := IntVector.empty }

/-- A fixture whose input holds the given elements in a block of exactly that
capacity. -/
def fixture_of (data : List Int) : CollectionLoopFixture :=
  { loopIterations := data.length,
    values := { storage := 1, data := data, capacity := data.length } }

/-- The pass functions of the five benchmark bodies over one fixture, in the
order of the source file. -/
def five_passes (malloc : Libc) (fx : CollectionLoopFixture) :
    List (Process → Except Raised (List Int × Process)) :=
  [loop_iteration malloc fx, enhancedLoop_iteration malloc fx, iterator_iteration malloc fx,
   iteratorConstEnd_iteration malloc fx, forEach_iteration malloc fx]

/-- The five benchmark bodies over one fixture, in the order of the source
file; each takes the iteration count and the process state. -/
def five_benchmarks (malloc : Libc) (fx : CollectionLoopFixture) :
    List (Nat → Process → Except Raised (Counters × Process)) :=
  [CollectionLoopFixture_loop malloc fx, CollectionLoopFixture_enhancedLoop malloc fx,
   CollectionLoopFixture_iterator malloc fx, CollectionLoopFixture_iteratorConstEnd malloc fx,
   CollectionLoopFixture_forEach malloc fx]

/-- The process state in which pass number `j` (counted from 0) of a benchmark
body starts: the one the `j` passes before it leave behind, the first of them
started right after the reset. -/
def state_at_pass (iteration : Process → Except Raised (List Int × Process)) (j : Nat)
    (p : Process) : Except Raised Process :=
  run_state iteration j (reset p)

/-- Number of `push_back` calls in a stretch of the log. -/
def push_back_count : List Event → Nat
  | [] => 0
  | Event.push_back _ :: rest => push_back_count rest + 1
  | _ :: rest => push_back_count rest

/-- The indices of the bounds-checked reads in a stretch of the log, in the
order in which the reads were made. -/
def at_indices : List Event → List Nat
  | [] => []
  | Event.at_ i :: rest => i :: at_indices rest
  | _ :: rest => at_indices rest

/-- The input `0, 1, ..., N - 1` in a block of capacity `N`. -/
def fixture_upto (N : Nat) : CollectionLoopFixture :=
  fixture_of ((List.range N).map (fun (i : Nat) => (i : Int)))

/-- A `std::malloc` that serves every request of at least one byte. -/
def malloc_serves (malloc : Libc) : Prop :=
  ∀ (trace : List Event) (size : Nat), 0 < size → malloc trace size ≠ nullptr

/-- The representation invariant of a `std::vector<int>`: the elements fit the
capacity, the capacity is within `max_size()`, and a vector with capacity owns
a block. -/
def IntVector.well_formed (v : IntVector) : Prop :=
  v.data.length ≤ v.capacity ∧ v.capacity ≤ IntVector.max_size ∧
    (0 < v.capacity → v.storage ≠ nullptr)

/-- Well-formedness can be checked by evaluation. -/
instance IntVector.decidable_well_formed (v : IntVector) : Decidable v.well_formed := by
  unfold IntVector.well_formed
  infer_instance

/-- The input `[0, 1, 2]` in a block of capacity 8, in a fixture last set up
for another size. -/
def fixture_roomy : CollectionLoopFixture :=
  { loopIterations := 9, values := { storage := 5, data := [0, 1, 2], capacity := 8 } }

/-! ## Auxiliary lemmas -/

/-- With room left in a block, `push_back` appends in place: no allocation, one
log entry. -/
theorem push_back_room (malloc : Libc) (v : IntVector) (x : Int) (p : Process)
    (h : v.data.length < v.capacity) (hst : v.storage ≠ nullptr) :
    v.push_back malloc x p =
      .ok ({ v with data := v.data ++ [x] }, p.observe (.push_back x)) := by
  simp [IntVector.push_back, IntVector.size, h, hst]

/-- The index loop from `i`, with room for the elements still to visit: it appends the
even ones among them and logs one read and one test per element. -/
theorem loop_for_spec (malloc : Libc) (values : IntVector) (n : Nat) :
    ∀ (i : Nat) (result : IntVector) (p : Process), n = values.data.length - i →
      i ≤ values.data.length →
      result.data.length + (values.data.length - i) ≤ result.capacity →
      (i < values.data.length → result.storage ≠ nullptr) →
      loop_for malloc values values.data.length i result p =
        .ok ({ result with data := result.data ++ (values.data.drop i).filter even_test },
             { p with trace := p.trace ++ loop_events i (values.data.drop i) }) := by
  induction n with
  | zero =>
    intro i result p hn hi _ _
    have hi2 : i = values.data.length := by omega
    subst hi2
    rw [loop_for]
    simp [loop_events]
  | succ n ih =>
    intro i result p hn hi hcap hst
    have hlt : i < values.data.length := by omega
    rw [loop_for]
    rw [List.drop_eq_getElem_cons hlt]
    simp only [hlt, if_true, IntVector.at_, dite_true]
    by_cases hev : Int.tmod values.data[i] 2 = 0
    · have hroom : result.data.length < result.capacity := by omega
      simp only [hev, if_true]
      rw [push_back_room malloc result _ _ hroom (hst hlt)]
      simp only
      rw [ih (i + 1) _ _ (by omega) (by omega) (by simp; omega) (by intro _; exact hst hlt)]
      simp [loop_events, even_test, hev, Process.observe, List.filter_cons, -List.getElem_cons_drop]
    · simp only [hev, if_false]
      rw [ih (i + 1) _ _ (by omega) (by omega) (by omega) (by intro _; exact hst hlt)]
      simp [loop_events, even_test, hev, Process.observe, List.filter_cons, -List.getElem_cons_drop]


/-- The range-based loop over `rest`, with room for all of `rest`. -/
theorem enhancedLoop_for_spec (malloc : Libc) :
    ∀ (rest : List Int) (result : IntVector) (p : Process),
      result.data.length + rest.length ≤ result.capacity →
      (rest ≠ [] → result.storage ≠ nullptr) →
      enhancedLoop_for malloc rest result p =
        .ok ({ result with data := result.data ++ rest.filter even_test },
             { p with trace := p.trace ++ scan_events rest }) := by
  intro rest
  induction rest with
  | nil => intro result p _ _; simp [enhancedLoop_for, scan_events]
  | cons value rest ih =>
    intro result p hcap hst
    have hst1 : result.storage ≠ nullptr := hst (by simp)
    simp only [List.length_cons] at hcap
    by_cases hev : Int.tmod value 2 = 0
    · have hroom : result.data.length < result.capacity := by omega
      simp only [enhancedLoop_for, hev, if_true]
      rw [push_back_room malloc result _ _ hroom hst1]
      simp only
      rw [ih _ _ (by simp; omega) (by intro _; exact hst1)]
      simp [scan_events, even_test, hev, Process.observe, List.filter_cons]
    · simp only [enhancedLoop_for, hev, if_false]
      rw [ih _ _ (by omega) (by intro _; exact hst1)]
      simp [scan_events, even_test, hev, Process.observe, List.filter_cons]

/-- The iterator loop from position `it`, with room for the elements still to visit. -/
theorem iterator_for_spec (malloc : Libc) (values : IntVector) (n : Nat) :
    ∀ (it : Nat) (hit : it ≤ values.end_) (result : IntVector) (p : Process),
      n = values.data.length - it →
      result.data.length + (values.data.length - it) ≤ result.capacity →
      (it < values.data.length → result.storage ≠ nullptr) →
      iterator_for malloc values it hit result p =
        .ok ({ result with data := result.data ++ (values.data.drop it).filter even_test },
             { p with trace := p.trace ++ scan_events (values.data.drop it) }) := by
  induction n with
  | zero =>
    intro it hit result p hn _ _
    have hit1 : it ≤ values.data.length := hit
    have hi2 : it = values.data.length := by omega
    subst hi2
    rw [iterator_for]
    simp [scan_events, IntVector.end_, IntVector.size]
  | succ n ih =>
    intro it hit result p hn hcap hst
    have hlt : it < values.data.length := by omega
    have hne : it ≠ values.end_ := by
      simp only [IntVector.end_, IntVector.size]; omega
    rw [iterator_for]
    rw [List.drop_eq_getElem_cons hlt]
    simp only [hne, ne_eq, not_false_eq_true, dite_true]
    by_cases hev : Int.tmod values.data[it] 2 = 0
    · have hroom : result.data.length < result.capacity := by omega
      simp only [hev, if_true]
      rw [push_back_room malloc result _ _ hroom (hst hlt)]
      simp only
      rw [ih (it + 1) _ _ _ (by omega) (by simp; omega) (by intro _; exact hst hlt)]
      simp [scan_events, even_test, hev, Process.observe, List.filter_cons,
        -List.getElem_cons_drop]
    · simp only [hev, if_false]
      rw [ih (it + 1) _ _ _ (by omega) (by omega) (by intro _; exact hst hlt)]
      simp [scan_events, even_test, hev, Process.observe, List.filter_cons,
        -List.getElem_cons_drop]

/-- The iterator loop with the cached end, from position `it`. -/
theorem iteratorConstEnd_for_spec (malloc : Libc) (values : IntVector) (n : Nat) :
    ∀ (it : Nat) (hit : it ≤ values.data.length) (result : IntVector) (p : Process),
      n = values.data.length - it →
      result.data.length + (values.data.length - it) ≤ result.capacity →
      (it < values.data.length → result.storage ≠ nullptr) →
      iteratorConstEnd_for malloc values values.data.length (Nat.le_refl _) it hit result p =
        .ok ({ result with data := result.data ++ (values.data.drop it).filter even_test },
             { p with trace := p.trace ++ scan_events (values.data.drop it) }) := by
  induction n with
  | zero =>
    intro it hit result p hn _ _
    have hi2 : it = values.data.length := by omega
    subst hi2
    rw [iteratorConstEnd_for]
    simp [scan_events]
  | succ n ih =>
    intro it hit result p hn hcap hst
    have hlt : it < values.data.length := by omega
    have hne : it ≠ values.data.length := by omega
    rw [iteratorConstEnd_for]
    rw [List.drop_eq_getElem_cons hlt]
    simp only [hne, ne_eq, not_false_eq_true, dite_true]
    by_cases hev : Int.tmod values.data[it] 2 = 0
    · have hroom : result.data.length < result.capacity := by omega
      simp only [hev, if_true]
      rw [push_back_room malloc result _ _ hroom (hst hlt)]
      simp only
      rw [ih (it + 1) _ _ _ (by omega) (by simp; omega) (by intro _; exact hst hlt)]
      simp [scan_events, even_test, hev, Process.observe, List.filter_cons,
        -List.getElem_cons_drop]
    · simp only [hev, if_false]
      rw [ih (it + 1) _ _ _ (by omega) (by omega) (by intro _; exact hst hlt)]
      simp [scan_events, even_test, hev, Process.observe, List.filter_cons,
        -List.getElem_cons_drop]

/-- `std::for_each` with the appending closure, from position `first`. -/
theorem for_each_lambda_spec (malloc : Libc) (values : IntVector) (n : Nat) :
    ∀ (first : Nat) (hfirst : first ≤ values.data.length) (result : IntVector) (p : Process),
      n = values.data.length - first →
      result.data.length + (values.data.length - first) ≤ result.capacity →
      (first < values.data.length → result.storage ≠ nullptr) →
      for_each values values.data.length (Nat.le_refl _) first hfirst (forEach_lambda malloc)
          (result, p) =
        .ok ({ result with data := result.data ++ (values.data.drop first).filter even_test },
             { p with trace := p.trace ++ scan_events (values.data.drop first) }) := by
  induction n with
  | zero =>
    intro first hfirst result p hn _ _
    have hi2 : first = values.data.length := by omega
    subst hi2
    rw [for_each]
    simp [scan_events]
  | succ n ih =>
    intro first hfirst result p hn hcap hst
    have hlt : first < values.data.length := by omega
    have hne : first ≠ values.data.length := by omega
    rw [for_each]
    rw [List.drop_eq_getElem_cons hlt]
    simp only [hne, ne_eq, not_false_eq_true, dite_true]
    by_cases hev : Int.tmod values.data[first] 2 = 0
    · have hroom : result.data.length < result.capacity := by omega
      simp only [forEach_lambda, hev, if_true]
      rw [push_back_room malloc result _ _ hroom (hst hlt)]
      simp only
      rw [ih (first + 1) _ _ _ (by omega) (by simp; omega) (by intro _; exact hst hlt)]
      simp [scan_events, even_test, hev, Process.observe, List.filter_cons,
        -List.getElem_cons_drop]
    · simp only [forEach_lambda, hev, if_false]
      rw [ih (first + 1) _ _ _ (by omega) (by omega) (by intro _; exact hst hlt)]
      simp [scan_events, even_test, hev, Process.observe, List.filter_cons,
        -List.getElem_cons_drop]


/-- One pass of `loop` in closed form, when `std::malloc` serves and the input
is within `max_size()`. -/
theorem loop_iteration_spec (malloc : Libc) (fx : CollectionLoopFixture)
    (hm : malloc_serves malloc) (hsize : fx.values.data.length ≤ IntVector.max_size)
    (p : Process) :
    loop_iteration malloc fx p =
      .ok (fx.values.data.filter even_test,
           pass_result malloc fx.values.data.length (loop_events 0 fx.values.data) p) := by
  have hmax : ¬ IntVector.max_size < fx.values.data.length := by omega
  by_cases hn : 0 < fx.values.data.length
  · have hptr : malloc p.trace (fx.values.data.length * sizeof_int) ≠ nullptr :=
      hm _ _ (Nat.mul_pos hn (by decide))
    simp only [loop_iteration, IntVector.reserve, IntVector.empty, IntVector.size, hmax, hn,
      if_true, if_false, IntVector.reallocate, operator_new, IntVector.deallocate,
      Process.observe, List.length_nil, lt_irrefl, and_false, IntVector.begin_, IntVector.end_]
    rw [loop_for_spec malloc fx.values _ 0 _ _ rfl (Nat.zero_le _) (by simp) (by intro _; exact hptr)]
    simp only [IntVector.destroy, IntVector.deallocate, pass_result, hn, if_true,
      List.drop_zero, List.nil_append, operator_delete, Process.observe, hptr, if_false]
    simp
  · simp only [loop_iteration, IntVector.reserve, IntVector.empty, IntVector.size, hmax, hn,
      if_false, IntVector.begin_, IntVector.end_]
    rw [loop_for_spec malloc fx.values _ 0 _ _ rfl (Nat.zero_le _) (by simpa using hn) (by intro h; exact absurd h hn)]
    simp [IntVector.destroy, IntVector.deallocate, pass_result, hn]

/-- One pass of `enhancedLoop` in closed form, when `std::malloc` serves and the input
is within `max_size()`. -/
theorem enhancedLoop_iteration_spec (malloc : Libc) (fx : CollectionLoopFixture)
    (hm : malloc_serves malloc) (hsize : fx.values.data.length ≤ IntVector.max_size)
    (p : Process) :
    enhancedLoop_iteration malloc fx p =
      .ok (fx.values.data.filter even_test,
           pass_result malloc fx.values.data.length (scan_events fx.values.data) p) := by
  have hmax : ¬ IntVector.max_size < fx.values.data.length := by omega
  by_cases hn : 0 < fx.values.data.length
  · have hptr : malloc p.trace (fx.values.data.length * sizeof_int) ≠ nullptr :=
      hm _ _ (Nat.mul_pos hn (by decide))
    simp only [enhancedLoop_iteration, IntVector.reserve, IntVector.empty, IntVector.size, hmax, hn,
      if_true, if_false, IntVector.reallocate, operator_new, IntVector.deallocate,
      Process.observe, List.length_nil, lt_irrefl, and_false, IntVector.begin_, IntVector.end_]
    rw [enhancedLoop_for_spec malloc _ _ _ (by simp) (by intro _; exact hptr)]
    simp only [IntVector.destroy, IntVector.deallocate, pass_result, hn, if_true,
      List.drop_zero, List.nil_append, operator_delete, Process.observe, hptr, if_false]
    simp
  · simp only [enhancedLoop_iteration, IntVector.reserve, IntVector.empty, IntVector.size, hmax, hn,
      if_false, IntVector.begin_, IntVector.end_]
    rw [enhancedLoop_for_spec malloc _ _ _ (by simpa using hn) (by intro h; exact absurd h (by simpa using hn))]
    simp [IntVector.destroy, IntVector.deallocate, pass_result, hn]

/-- One pass of `iterator` in closed form, when `std::malloc` serves and the input
is within `max_size()`. -/
theorem iterator_iteration_spec (malloc : Libc) (fx : CollectionLoopFixture)
    (hm : malloc_serves malloc) (hsize : fx.values.data.length ≤ IntVector.max_size)
    (p : Process) :
    iterator_iteration malloc fx p =
      .ok (fx.values.data.filter even_test,
           pass_result malloc fx.values.data.length (scan_events fx.values.data) p) := by
  have hmax : ¬ IntVector.max_size < fx.values.data.length := by omega
  by_cases hn : 0 < fx.values.data.length
  · have hptr : malloc p.trace (fx.values.data.length * sizeof_int) ≠ nullptr :=
      hm _ _ (Nat.mul_pos hn (by decide))
    simp only [iterator_iteration, IntVector.reserve, IntVector.empty, IntVector.size, hmax, hn,
      if_true, if_false, IntVector.reallocate, operator_new, IntVector.deallocate,
      Process.observe, List.length_nil, lt_irrefl, and_false, IntVector.begin_, IntVector.end_]
    rw [iterator_for_spec malloc fx.values _ 0 _ _ _ rfl (by simp) (by intro _; exact hptr)]
    simp only [IntVector.destroy, IntVector.deallocate, pass_result, hn, if_true,
      List.drop_zero, List.nil_append, operator_delete, Process.observe, hptr, if_false]
    simp
  · simp only [iterator_iteration, IntVector.reserve, IntVector.empty, IntVector.size, hmax, hn,
      if_false, IntVector.begin_, IntVector.end_]
    rw [iterator_for_spec malloc fx.values _ 0 _ _ _ rfl (by simpa using hn) (by intro h; exact absurd h hn)]
    simp [IntVector.destroy, IntVector.deallocate, pass_result, hn]

/-- One pass of `iteratorConstEnd` in closed form, when `std::malloc` serves and the input
is within `max_size()`. -/
theorem iteratorConstEnd_iteration_spec (malloc : Libc) (fx : CollectionLoopFixture)
    (hm : malloc_serves malloc) (hsize : fx.values.data.length ≤ IntVector.max_size)
    (p : Process) :
    iteratorConstEnd_iteration malloc fx p =
      .ok (fx.values.data.filter even_test,
           pass_result malloc fx.values.data.length (scan_events fx.values.data) p) := by
  have hmax : ¬ IntVector.max_size < fx.values.data.length := by omega
  by_cases hn : 0 < fx.values.data.length
  · have hptr : malloc p.trace (fx.values.data.length * sizeof_int) ≠ nullptr :=
      hm _ _ (Nat.mul_pos hn (by decide))
    simp only [iteratorConstEnd_iteration, IntVector.reserve, IntVector.empty, IntVector.size, hmax, hn,
      if_true, if_false, IntVector.reallocate, operator_new, IntVector.deallocate,
      Process.observe, List.length_nil, lt_irrefl, and_false, IntVector.begin_, IntVector.end_]
    rw [iteratorConstEnd_for_spec malloc fx.values _ 0 _ _ _ rfl (by simp) (by intro _; exact hptr)]
    simp only [IntVector.destroy, IntVector.deallocate, pass_result, hn, if_true,
      List.drop_zero, List.nil_append, operator_delete, Process.observe, hptr, if_false]
    simp
  · simp only [iteratorConstEnd_iteration, IntVector.reserve, IntVector.empty, IntVector.size, hmax, hn,
      if_false, IntVector.begin_, IntVector.end_]
    rw [iteratorConstEnd_for_spec malloc fx.values _ 0 _ _ _ rfl (by simpa using hn) (by intro h; exact absurd h hn)]
    simp [IntVector.destroy, IntVector.deallocate, pass_result, hn]

/-- One pass of `forEach` in closed form, when `std::malloc` serves and the input
is within `max_size()`. -/
theorem forEach_iteration_spec (malloc : Libc) (fx : CollectionLoopFixture)
    (hm : malloc_serves malloc) (hsize : fx.values.data.length ≤ IntVector.max_size)
    (p : Process) :
    forEach_iteration malloc fx p =
      .ok (fx.values.data.filter even_test,
           pass_result malloc fx.values.data.length (scan_events fx.values.data) p) := by
  have hmax : ¬ IntVector.max_size < fx.values.data.length := by omega
  by_cases hn : 0 < fx.values.data.length
  · have hptr : malloc p.trace (fx.values.data.length * sizeof_int) ≠ nullptr :=
      hm _ _ (Nat.mul_pos hn (by decide))
    simp only [forEach_iteration, IntVector.reserve, IntVector.empty, IntVector.size, hmax, hn,
      if_true, if_false, IntVector.reallocate, operator_new, IntVector.deallocate,
      Process.observe, List.length_nil, lt_irrefl, and_false, IntVector.begin_, IntVector.end_]
    rw [for_each_lambda_spec malloc fx.values _ 0 _ _ _ rfl (by simp) (by intro _; exact hptr)]
    simp only [IntVector.destroy, IntVector.deallocate, pass_result, hn, if_true,
      List.drop_zero, List.nil_append, operator_delete, Process.observe, hptr, if_false]
    simp
  · simp only [forEach_iteration, IntVector.reserve, IntVector.empty, IntVector.size, hmax, hn,
      if_false, IntVector.begin_, IntVector.end_]
    rw [for_each_lambda_spec malloc fx.values _ 0 _ _ _ rfl (by simpa using hn) (by intro h; exact absurd h hn)]
    simp [IntVector.destroy, IntVector.deallocate, pass_result, hn]

/-- Counting `malloc` calls distributes over concatenation of logs. -/
theorem malloc_calls_append (xs ys : List Event) :
    malloc_calls (xs ++ ys) = malloc_calls xs + malloc_calls ys := by
  induction xs with
  | nil => simp [malloc_calls]
  | cons e xs ih => cases e <;> simp [malloc_calls, ih]; omega

/-- Summing requested sizes distributes over concatenation of logs. -/
theorem malloc_bytes_append (xs ys : List Event) :
    malloc_bytes (xs ++ ys) = malloc_bytes xs + malloc_bytes ys := by
  induction xs with
  | nil => simp [malloc_bytes]
  | cons e xs ih => cases e <;> simp [malloc_bytes, ih]; omega

/-- A traversal without bounds-checked reads logs no allocation. -/
theorem scan_events_no_malloc (l : List Int) :
    malloc_calls (scan_events l) = 0 ∧ malloc_bytes (scan_events l) = 0 := by
  induction l with
  | nil => simp [scan_events, malloc_calls, malloc_bytes]
  | cons v l ih =>
    by_cases hev : Int.tmod v 2 = 0 <;>
      simp [scan_events, hev, malloc_calls, malloc_bytes, ih]

/-- The index loop logs no allocation. -/
theorem loop_events_no_malloc (l : List Int) :
    ∀ i, malloc_calls (loop_events i l) = 0 ∧ malloc_bytes (loop_events i l) = 0 := by
  induction l with
  | nil => intro i; simp [loop_events, malloc_calls, malloc_bytes]
  | cons v l ih =>
    intro i
    by_cases hev : Int.tmod v 2 = 0 <;>
      simp [loop_events, hev, malloc_calls, malloc_bytes, ih]

/-- What one pass adds: one allocation of `n * sizeof(int)` bytes when `n > 0`, none
otherwise, in the counters and in the log alike. -/
theorem pass_result_effect (malloc : Libc) (n : Nat) (visit : List Event) (p : Process)
    (hv : malloc_calls visit = 0 ∧ malloc_bytes visit = 0)
    (hc : p.allocationCount < ULLONG_RANGE) (hb : p.allocatedBytes < ULLONG_RANGE) :
    ∃ evs, (pass_result malloc n visit p).trace = p.trace ++ evs ∧
      malloc_calls evs = pass_allocs n ∧ malloc_bytes evs = n * sizeof_int ∧
      (pass_result malloc n visit p).allocationCount =
        (p.allocationCount + pass_allocs n) % ULLONG_RANGE ∧
      (pass_result malloc n visit p).allocatedBytes =
        (p.allocatedBytes + n * sizeof_int) % ULLONG_RANGE := by
  by_cases hn : 0 < n
  · refine ⟨Event.malloc (n * sizeof_int) (malloc p.trace (n * sizeof_int)) :: visit ++
        (if malloc p.trace (n * sizeof_int) = nullptr then []
          else [Event.free (malloc p.trace (n * sizeof_int))]), ?_, ?_, ?_, ?_, ?_⟩
    · simp only [pass_result, hn, if_true, List.append_assoc]
    · split <;>
        simp [malloc_calls, malloc_calls_append, hv.1, pass_allocs, hn]
    · split <;>
        simp [malloc_bytes, malloc_bytes_append, hv.2]
    · simp [pass_result, hn, pass_allocs]
    · simp [pass_result, hn]
  · have h0 : n = 0 := by omega
    subst h0
    refine ⟨visit, ?_, ?_, ?_, ?_, ?_⟩
    · simp [pass_result]
    · simp [hv.1, pass_allocs]
    · simp [hv.2]
    · simp [pass_result, pass_allocs, Nat.mod_eq_of_lt hc]
    · simp [pass_result, Nat.mod_eq_of_lt hb]

/-- The counters and the log after `k` passes, from any state with counters in range. -/
theorem run_state_closed (malloc : Libc) (n : Nat) (visit : List Event) (r : List Int)
    (iteration : Process → Except Raised (List Int × Process))
    (hiter : ∀ p, iteration p = .ok (r, pass_result malloc n visit p))
    (hv : malloc_calls visit = 0 ∧ malloc_bytes visit = 0) :
    ∀ (k : Nat) (p : Process), p.allocationCount < ULLONG_RANGE →
      p.allocatedBytes < ULLONG_RANGE →
      ∃ pk evs, run_state iteration k p = .ok pk ∧ pk.trace = p.trace ++ evs ∧
        malloc_calls evs = k * pass_allocs n ∧ malloc_bytes evs = k * (n * sizeof_int) ∧
        pk.allocationCount = (p.allocationCount + k * pass_allocs n) % ULLONG_RANGE ∧
        pk.allocatedBytes = (p.allocatedBytes + k * (n * sizeof_int)) % ULLONG_RANGE := by
  intro k
  induction k with
  | zero =>
    intro p hc hb
    exact ⟨p, [], by simp [run_state], by simp, by simp [malloc_calls],
      by simp [malloc_bytes], by simp [Nat.mod_eq_of_lt hc], by simp [Nat.mod_eq_of_lt hb]⟩
  | succ k ih =>
    intro p hc hb
    obtain ⟨evs1, ht1, hm1, hs1, hc1, hb1⟩ := pass_result_effect malloc n visit p hv hc hb
    have hR : 0 < ULLONG_RANGE := by simp [ULLONG_RANGE]
    obtain ⟨pk, evs, hrun, ht, hm, hs, hck, hbk⟩ :=
      ih (pass_result malloc n visit p) (by rw [hc1]; exact Nat.mod_lt _ hR)
        (by rw [hb1]; exact Nat.mod_lt _ hR)
    refine ⟨pk, evs1 ++ evs, ?_, ?_, ?_, ?_, ?_, ?_⟩
    · simp [run_state, hiter, hrun]
    · rw [ht, ht1, List.append_assoc]
    · rw [malloc_calls_append, hm1, hm, Nat.succ_mul]; omega
    · rw [malloc_bytes_append, hs1, hs, Nat.succ_mul]; omega
    · rw [hck, hc1, Nat.succ_mul, Nat.mod_add_mod]
      congr 1; omega
    · rw [hbk, hb1, Nat.succ_mul, Nat.mod_add_mod]
      congr 1; omega

/-- Below `2 ^ 31` the conversion to `int` keeps the value. -/
theorem size_t_to_int_small (i : Nat) (h : i < 2 ^ 31) : size_t_to_int i = (i : Int) := by
  have h1 : i % 2 ^ 32 = i := Nat.mod_eq_of_lt (by omega)
  unfold size_t_to_int
  rw [h1, if_pos h]

/-- Within `[0, INT_MAX]` the conversion to `std::size_t` keeps the value. -/
theorem int64_to_size_t_small (N : Int) (h0 : 0 ≤ N) (hN : N ≤ INT_MAX) :
    int64_to_size_t N = N.toNat := by
  have h1 : N % (2 ^ 64 : Int) = N := by
    apply Int.emod_eq_of_lt h0
    simp only [INT_MAX] at hN
    omega
  unfold int64_to_size_t
  rw [h1]

/-- On non-negative values the truncating test is the usual parity test. -/
theorem even_test_natCast (n : Nat) : even_test (n : Int) = decide (n % 2 = 0) := by
  simp only [even_test]
  congr 1
  apply propext
  rw [Int.tmod_eq_emod (by omega) (by omega)]
  omega

/-- The even elements of `0, 1, ..., N - 1` are `evens N`. -/
theorem filter_range_evens (N : Nat) :
    ((List.range N).map (fun (i : Nat) => (i : Int))).filter even_test = evens N := by
  induction N with
  | zero => simp [evens]
  | succ N ih =>
    rw [List.range_succ, List.map_append, List.filter_append, ih]
    by_cases hev : N % 2 = 0
    · have hh : (N + 1 + 1) / 2 = (N + 1) / 2 + 1 := by omega
      simp [evens, hh, List.range_succ, even_test_natCast, hev]
      omega
    · have hh : (N + 1 + 1) / 2 = (N + 1) / 2 := by omega
      simp [evens, hh, even_test_natCast, hev]

/-- A run of `j + m` passes is a run of `j` passes followed by a run of `m` passes. -/
theorem run_state_split (iteration : Process → Except Raised (List Int × Process)) :
    ∀ (j m : Nat) (p pj : Process), run_state iteration j p = .ok pj →
      run_state iteration (j + m) p = run_state iteration m pj := by
  intro j
  induction j with
  | zero =>
    intro m p pj h
    simp only [run_state, Except.ok.injEq] at h
    simp [h]
  | succ j ih =>
    intro m p pj h
    have hjm : j + 1 + m = (j + m) + 1 := by omega
    rw [hjm]
    simp only [run_state] at h ⊢
    cases hit : iteration p with
    | error e => simp [hit] at h
    | ok rq =>
      simp only [hit] at h ⊢
      exact ih m rq.2 pj h

/-- Each benchmark body is `benchmark_body` applied to one of the five passes. -/
theorem five_benchmarks_passes (malloc : Libc) (fx : CollectionLoopFixture) :
    ∀ body ∈ five_benchmarks malloc fx, ∃ iteration ∈ five_passes malloc fx,
      body = benchmark_body iteration := by
  intro body hmem
  simp only [five_benchmarks, List.mem_cons, List.mem_singleton, List.not_mem_nil,
    or_false] at hmem
  rcases hmem with rfl | rfl | rfl | rfl | rfl
  · exact ⟨loop_iteration malloc fx, by simp [five_passes], rfl⟩
  · exact ⟨enhancedLoop_iteration malloc fx, by simp [five_passes], rfl⟩
  · exact ⟨iterator_iteration malloc fx, by simp [five_passes], rfl⟩
  · exact ⟨iteratorConstEnd_iteration malloc fx, by simp [five_passes], rfl⟩
  · exact ⟨forEach_iteration malloc fx, by simp [five_passes], rfl⟩

/-- Counting allocate calls distributes over concatenation. -/
theorem allocate_calls_append (xs ys : List HeapCall) :
    allocate_calls (xs ++ ys) = allocate_calls xs + allocate_calls ys := by
  induction xs with
  | nil => simp [allocate_calls]
  | cons c xs ih => cases c <;> simp [allocate_calls, ih]; all_goals omega

/-- Summing requested sizes distributes over concatenation. -/
theorem requested_bytes_append (xs ys : List HeapCall) :
    requested_bytes (xs ++ ys) = requested_bytes xs + requested_bytes ys := by
  induction xs with
  | nil => simp [requested_bytes]
  | cons c xs ih => cases c <;> simp [requested_bytes, ih]; all_goals omega

/-- Without wraparound a call sequence adds its number of allocate calls and the sum
of their sizes to the counters. -/
theorem run_calls_totals (malloc : Libc) (calls : List HeapCall) :
    ∀ p : Process, p.allocationCount + allocate_calls calls < 2 ^ 64 →
      p.allocatedBytes + requested_bytes calls < 2 ^ 64 →
      (run_calls malloc p calls).allocationCount = p.allocationCount + allocate_calls calls ∧
      (run_calls malloc p calls).allocatedBytes = p.allocatedBytes + requested_bytes calls := by
  induction calls with
  | nil => intro p _ _; simp [run_calls, allocate_calls, requested_bytes]
  | cons c calls ih =>
    intro p hc hb
    have hstep : run_calls malloc p (c :: calls) = run_calls malloc (HeapCall.run malloc p c) calls :=
      rfl
    rw [hstep]
    cases c with
    | new size =>
      simp only [allocate_calls, requested_bytes] at hc hb ⊢
      have h1 : (HeapCall.run malloc p (.new size)).allocationCount = p.allocationCount + 1 := by
        simp only [HeapCall.run, operator_new, Process.observe, ULLONG_RANGE]
        exact Nat.mod_eq_of_lt (by omega)
      have h2 : (HeapCall.run malloc p (.new size)).allocatedBytes = p.allocatedBytes + size := by
        simp only [HeapCall.run, operator_new, Process.observe, ULLONG_RANGE]
        exact Nat.mod_eq_of_lt (by omega)
      obtain ⟨ha, hb2⟩ := ih (HeapCall.run malloc p (.new size)) (by omega) (by omega)
      omega
    | new_array size =>
      simp only [allocate_calls, requested_bytes] at hc hb ⊢
      have h1 : (HeapCall.run malloc p (.new_array size)).allocationCount =
          p.allocationCount + 1 := by
        simp only [HeapCall.run, operator_new_array, Process.observe, ULLONG_RANGE]
        exact Nat.mod_eq_of_lt (by omega)
      have h2 : (HeapCall.run malloc p (.new_array size)).allocatedBytes =
          p.allocatedBytes + size := by
        simp only [HeapCall.run, operator_new_array, Process.observe, ULLONG_RANGE]
        exact Nat.mod_eq_of_lt (by omega)
      obtain ⟨ha, hb2⟩ := ih (HeapCall.run malloc p (.new_array size)) (by omega) (by omega)
      omega
    | delete ptr =>
      simp only [allocate_calls, requested_bytes] at hc hb ⊢
      exact ih (HeapCall.run malloc p (.delete ptr)) hc hb
    | delete_array ptr =>
      simp only [allocate_calls, requested_bytes] at hc hb ⊢
      exact ih (HeapCall.run malloc p (.delete_array ptr)) hc hb

/-- The body built from one of the five passes is one of the five benchmark bodies. -/
theorem benchmark_of_pass_mem (malloc : Libc) (fx : CollectionLoopFixture) :
    ∀ iteration ∈ five_passes malloc fx,
      benchmark_body iteration ∈ five_benchmarks malloc fx := by
  intro iteration hmem
  simp only [five_passes, List.mem_cons, List.mem_singleton, List.not_mem_nil, or_false] at hmem
  rcases hmem with rfl | rfl | rfl | rfl | rfl
  · exact List.mem_cons_self _ _
  · exact List.mem_cons_of_mem _ (List.mem_cons_self _ _)
  · exact List.mem_cons_of_mem _ (List.mem_cons_of_mem _ (List.mem_cons_self _ _))
  · exact List.mem_cons_of_mem _ (List.mem_cons_of_mem _ (List.mem_cons_of_mem _
      (List.mem_cons_self _ _)))
  · exact List.mem_cons_of_mem _ (List.mem_cons_of_mem _ (List.mem_cons_of_mem _
      (List.mem_cons_of_mem _ (List.mem_cons_self _ _))))

/-- `evens N` has `⌈N / 2⌉` elements. -/
theorem evens_length (N : Nat) : (evens N).length = (N + 1) / 2 := by
  simp [evens]

/-- The last element of `evens N` is `2 * (⌈N / 2⌉ - 1)` when `N ≥ 1`. -/
theorem evens_getLast (N : Nat) (h : 1 ≤ N) :
    (evens N).getLast? = some (2 * ((((N + 1) / 2 - 1 : Nat)) : Int)) := by
  obtain ⟨m, hm⟩ : ∃ m, (N + 1) / 2 = m + 1 := ⟨(N + 1) / 2 - 1, by omega⟩
  simp [evens, hm, List.range_succ]

/-- Counting `push_back` calls distributes over concatenation of logs. -/
theorem push_back_count_append (xs ys : List Event) :
    push_back_count (xs ++ ys) = push_back_count xs + push_back_count ys := by
  induction xs with
  | nil => simp [push_back_count]
  | cons e xs ih => cases e <;> simp [push_back_count, ih]; omega

/-- Collecting the indices of the reads distributes over concatenation of logs. -/
theorem at_indices_append (xs ys : List Event) :
    at_indices (xs ++ ys) = at_indices xs ++ at_indices ys := by
  induction xs with
  | nil => simp [at_indices]
  | cons e xs ih => cases e <;> simp [at_indices, ih]

/-- The index loop started at `i` reads the indices `i, i + 1, ...`, one per
element still to visit. -/
theorem at_indices_loop_events (l : List Int) :
    ∀ i, at_indices (loop_events i l) = List.range' i l.length := by
  induction l with
  | nil => intro i; simp [loop_events, at_indices]
  | cons v l ih =>
    intro i
    by_cases hev : Int.tmod v 2 = 0 <;>
      simp [loop_events, hev, at_indices, ih, List.range'_succ]

/-- The index loop calls `push_back` once per even element. -/
theorem push_back_count_loop_events (l : List Int) :
    ∀ i, push_back_count (loop_events i l) = (l.filter even_test).length := by
  induction l with
  | nil => intro i; simp [loop_events, push_back_count]
  | cons v l ih =>
    intro i
    by_cases hev : Int.tmod v 2 = 0 <;>
      simp [loop_events, hev, push_back_count, ih, even_test, List.filter_cons]

/-- The other traversals call `push_back` once per even element. -/
theorem push_back_count_scan_events (l : List Int) :
    push_back_count (scan_events l) = (l.filter even_test).length := by
  induction l with
  | nil => simp [scan_events, push_back_count]
  | cons v l ih =>
    by_cases hev : Int.tmod v 2 = 0 <;>
      simp [scan_events, hev, push_back_count, ih, even_test, List.filter_cons]

/-- The sample allocator `malloc_fresh` serves every request. -/
theorem malloc_fresh_serves : malloc_serves malloc_fresh := by
  intro trace size _
  simp [malloc_fresh, nullptr]

/-- The filling loop of `SetUp` from index `i`, with room in a block for the
indices still to come: it appends their conversions, one `push_back` each. -/
theorem SetUp_for_spec (malloc : Libc) (loopIterations : Nat) (n : Nat) :
    ∀ (i : Nat) (values : IntVector) (p : Process), n = loopIterations - i →
      values.data.length + (loopIterations - i) ≤ values.capacity →
      (i < loopIterations → values.storage ≠ nullptr) →
      SetUp_for malloc loopIterations i values p =
        .ok ({ values with
                data := values.data ++ (List.range' i (loopIterations - i)).map size_t_to_int },
             { p with
                trace := p.trace ++ (List.range' i (loopIterations - i)).map
                  (fun j => Event.push_back (size_t_to_int j)) }) := by
  induction n with
  | zero =>
    intro i values p hn _ _
    have hle : ¬ i < loopIterations := by omega
    have h0 : loopIterations - i = 0 := by omega
    rw [SetUp_for]
    simp [hle, h0]
  | succ n ih =>
    intro i values p hn hcap hst
    have hlt : i < loopIterations := by omega
    have hroom : values.data.length < values.capacity := by omega
    have hs : loopIterations - i = (loopIterations - (i + 1)) + 1 := by omega
    rw [SetUp_for]
    simp only [hlt, if_true]
    rw [push_back_room malloc values _ _ hroom (hst hlt)]
    simp only
    rw [ih (i + 1) _ _ (by omega) (by simp; omega) (by intro _; exact hst hlt)]
    conv_rhs => rw [hs, List.range'_succ]
    simp [Process.observe]

/-- The `clear` and `reserve` of `SetUp` on a well-formed vector: an empty
vector with room for `n` elements in a block. -/
theorem SetUp_reserve (malloc : Libc) (hm : malloc_serves malloc) (v : IntVector)
    (hwf : v.well_formed) (n : Nat) (hn : n ≤ IntVector.max_size) (p : Process) :
    ∃ v1 p1, v.clear.reserve malloc n p = .ok (v1, p1) ∧ v1.data = [] ∧
      n ≤ v1.capacity ∧ v1.capacity ≤ IntVector.max_size ∧
      (0 < v1.capacity → v1.storage ≠ nullptr) := by
  have hmax : ¬ IntVector.max_size < n := by omega
  by_cases hc : v.capacity < n
  · have hpos : 0 < n * sizeof_int := Nat.mul_pos (by omega) (by decide)
    have hptr : malloc p.trace (n * sizeof_int) ≠ nullptr := hm _ _ hpos
    simp only [IntVector.reserve, IntVector.clear, hmax, hc, if_true, if_false,
      IntVector.reallocate, operator_new, List.length_nil, lt_irrefl, and_false]
    exact ⟨_, _, rfl, rfl, le_refl _, hn, fun _ => hptr⟩
  · simp only [IntVector.reserve, IntVector.clear, hmax, hc, if_false]
    exact ⟨_, _, rfl, rfl, Nat.le_of_not_lt hc, hwf.2.1, hwf.2.2⟩

/-- When `std::malloc` serves, the fixture held a well-formed vector and the
size is within `max_size()`, `SetUp` returns and `values` is a well-formed
vector holding the conversions of `0, 1, ..., loopIterations - 1`. -/
theorem SetUp_values (malloc : Libc) (hm : malloc_serves malloc) (fx0 : CollectionLoopFixture)
    (hwf : fx0.values.well_formed) (p0 : Process) (N : Int)
    (hn : int64_to_size_t N ≤ IntVector.max_size) :
    ∃ fx p1, SetUp malloc fx0 N p0 = .ok (fx, p1) ∧
      fx.loopIterations = int64_to_size_t N ∧
      fx.values.data = (List.range' 0 (int64_to_size_t N)).map size_t_to_int ∧
      fx.values.well_formed := by
  obtain ⟨v1, p1, hres, hd1, hcap, hcmax, hst⟩ :=
    SetUp_reserve malloc hm fx0.values hwf (int64_to_size_t N) hn p0
  have hfor := SetUp_for_spec malloc (int64_to_size_t N) _ 0 v1 p1 rfl
    (by rw [hd1]; simpa using hcap) (by intro h; exact hst (by omega))
  simp only [SetUp, hres, hfor]
  refine ⟨_, _, rfl, rfl, by simp [hd1], ?_, hcmax, hst⟩
  simp only [hd1, List.nil_append, Nat.sub_zero, List.length_map, List.length_range']
  exact hcap

/-- Above `max_size()`, `SetUp` ends in `std::length_error`, raised by its
`reserve`. -/
theorem SetUp_too_large (malloc : Libc) (fx0 : CollectionLoopFixture) (p0 : Process) (N : Int)
    (hn : IntVector.max_size < int64_to_size_t N) :
    SetUp malloc fx0 N p0 = .error .length_error := by
  simp only [SetUp, IntVector.reserve, hn, if_true]

/-- The call `SetUp(0)` allocates nothing and leaves `values` cleared. -/
theorem SetUp_zero (malloc : Libc) (fx0 : CollectionLoopFixture) (p0 : Process) :
    SetUp malloc fx0 0 p0 =
      .ok ({ loopIterations := 0, values := fx0.values.clear }, p0) := by
  have h0 : int64_to_size_t 0 = 0 := by decide
  have hmax : ¬ IntVector.max_size < 0 := by omega
  have hcap : ¬ fx0.values.clear.capacity < 0 := by omega
  simp only [SetUp, h0, IntVector.reserve, hmax, hcap, if_false]
  rw [SetUp_for]
  simp

/-- For `0 ≤ N ≤ INT_MAX`, when `std::malloc` serves and the fixture held a
well-formed vector, `SetUp(N)` returns and `values` is a well-formed vector
holding `0, 1, ..., N - 1`. -/
theorem SetUp_data (malloc : Libc) (hm : malloc_serves malloc) (fx0 : CollectionLoopFixture)
    (hwf : fx0.values.well_formed) (p0 : Process) (N : Int) (h0 : 0 ≤ N) (hN : N ≤ INT_MAX) :
    ∃ fx p1, SetUp malloc fx0 N p0 = .ok (fx, p1) ∧
      fx.loopIterations = N.toNat ∧
      fx.values.data = (List.range N.toNat).map (fun (i : Nat) => (i : Int)) ∧
      fx.values.well_formed := by
  have hsz := int64_to_size_t_small N h0 hN
  have hlt : N.toNat < 2 ^ 31 := by
    simp only [INT_MAX] at hN
    omega
  have hmax : int64_to_size_t N ≤ IntVector.max_size := by
    rw [hsz]
    simp only [IntVector.max_size]
    omega
  obtain ⟨fx, p1, hset, hloop, hdata, hwf1⟩ := SetUp_values malloc hm fx0 hwf p0 N hmax
  refine ⟨fx, p1, hset, by rw [hloop, hsz], ?_, hwf1⟩
  rw [hdata, hsz, List.range_eq_range']
  apply List.map_congr_left
  intro i hi
  apply size_t_to_int_small
  simp only [List.mem_range'_1] at hi
  omega

/-- On an empty input each of the five passes returns an empty result and
leaves the process as it was, whatever `std::malloc` does. -/
theorem five_passes_empty (malloc : Libc) (fx : CollectionLoopFixture)
    (hnil : fx.values.data = []) :
    ∀ iteration ∈ five_passes malloc fx, ∀ p, iteration p = .ok ([], p) := by
  have hmax : ¬ IntVector.max_size < 0 := by omega
  intro iteration hmem p
  simp only [five_passes, List.mem_cons, List.mem_singleton, List.not_mem_nil, or_false] at hmem
  rcases hmem with rfl | rfl | rfl | rfl | rfl
  · simp only [loop_iteration, IntVector.reserve, IntVector.empty, IntVector.size, hnil,
      List.length_nil, hmax, lt_irrefl, if_false]
    rw [loop_for]
    simp [IntVector.destroy, IntVector.deallocate]
  · simp [enhancedLoop_iteration, IntVector.reserve, IntVector.empty, IntVector.size, hnil,
      hmax, enhancedLoop_for, IntVector.destroy, IntVector.deallocate]
  · simp only [iterator_iteration, IntVector.reserve, IntVector.empty, IntVector.size, hnil,
      List.length_nil, hmax, lt_irrefl, if_false, IntVector.begin_]
    rw [iterator_for]
    simp [IntVector.destroy, IntVector.deallocate, IntVector.end_, IntVector.size, hnil]
  · simp only [iteratorConstEnd_iteration, IntVector.reserve, IntVector.empty, IntVector.size,
      hnil, List.length_nil, hmax, lt_irrefl, if_false, IntVector.begin_, IntVector.end_]
    rw [iteratorConstEnd_for]
    simp [IntVector.destroy, IntVector.deallocate]
  · simp only [forEach_iteration, IntVector.reserve, IntVector.empty, IntVector.size,
      hnil, List.length_nil, hmax, lt_irrefl, if_false, IntVector.begin_, IntVector.end_]
    rw [for_each]
    simp [IntVector.destroy, IntVector.deallocate]

/-- Each of the five passes has the closed form `pass_result`, with a
traversal log free of allocations that counts one `push_back` per even
element, when `std::malloc` serves and the input is within `max_size()`. -/
theorem five_passes_closed (malloc : Libc) (fx : CollectionLoopFixture)
    (hm : malloc_serves malloc) (hsize : fx.values.size ≤ IntVector.max_size) :
    ∀ iteration ∈ five_passes malloc fx, ∃ visit,
      (malloc_calls visit = 0 ∧ malloc_bytes visit = 0) ∧
      push_back_count visit = (fx.values.data.filter even_test).length ∧
      ∀ p, iteration p =
        .ok (fx.values.data.filter even_test, pass_result malloc fx.values.data.length visit p) := by
  intro iteration hmem
  simp only [five_passes, List.mem_cons, List.mem_singleton, List.not_mem_nil, or_false] at hmem
  rcases hmem with rfl | rfl | rfl | rfl | rfl
  · exact ⟨loop_events 0 fx.values.data, loop_events_no_malloc _ 0,
      push_back_count_loop_events _ 0, loop_iteration_spec malloc fx hm hsize⟩
  · exact ⟨scan_events fx.values.data, scan_events_no_malloc _,
      push_back_count_scan_events _, enhancedLoop_iteration_spec malloc fx hm hsize⟩
  · exact ⟨scan_events fx.values.data, scan_events_no_malloc _,
      push_back_count_scan_events _, iterator_iteration_spec malloc fx hm hsize⟩
  · exact ⟨scan_events fx.values.data, scan_events_no_malloc _,
      push_back_count_scan_events _, iteratorConstEnd_iteration_spec malloc fx hm hsize⟩
  · exact ⟨scan_events fx.values.data, scan_events_no_malloc _,
      push_back_count_scan_events _, forEach_iteration_spec malloc fx hm hsize⟩

/-- Counters and log at the start of pass `j` of any of the five bodies. -/
theorem state_at_pass_closed (malloc : Libc) (fx : CollectionLoopFixture)
    (hm : malloc_serves malloc) (hsize : fx.values.size ≤ IntVector.max_size) :
    ∀ iteration ∈ five_passes malloc fx, ∀ (j : Nat) (p : Process),
      ∃ pj evs, state_at_pass iteration j p = .ok pj ∧ pj.trace = p.trace ++ evs ∧
        malloc_calls evs = j * pass_allocs fx.values.size ∧
        malloc_bytes evs = j * (fx.values.size * sizeof_int) ∧
        pj.allocationCount = (j * pass_allocs fx.values.size) % ULLONG_RANGE ∧
        pj.allocatedBytes = (j * (fx.values.size * sizeof_int)) % ULLONG_RANGE := by
  intro iteration hmem j p
  obtain ⟨visit, hv, _, hiter⟩ := five_passes_closed malloc fx hm hsize iteration hmem
  have hR : 0 < ULLONG_RANGE := by simp [ULLONG_RANGE]
  obtain ⟨pj, evs, hrun, ht, hms, hs, hc, hb⟩ :=
    run_state_closed malloc fx.values.data.length visit _ iteration hiter hv j (reset p) hR hR
  refine ⟨pj, evs, hrun, ?_, hms, hs, ?_, ?_⟩
  · simpa [reset] using ht
  · simpa [reset, IntVector.size] using hc
  · simpa [reset, IntVector.size] using hb

/-- What any of the five bodies reads after `k` iterations, with the log of the run. -/
theorem benchmark_closed (malloc : Libc) (fx : CollectionLoopFixture)
    (hm : malloc_serves malloc) (hsize : fx.values.size ≤ IntVector.max_size) :
    ∀ body ∈ five_benchmarks malloc fx, ∀ (k : Nat) (p : Process),
      ∃ rep q evs, body k p = .ok (rep, q) ∧ q.trace = p.trace ++ evs ∧
        malloc_calls evs = k * pass_allocs fx.values.size ∧
        malloc_bytes evs = k * (fx.values.size * sizeof_int) ∧
        rep.AllocCount = (k * pass_allocs fx.values.size) % ULLONG_RANGE ∧
        rep.AllocBytes = (k * (fx.values.size * sizeof_int)) % ULLONG_RANGE ∧
        rep.iterations = k := by
  intro body hmem k p
  obtain ⟨iteration, hit, rfl⟩ := five_benchmarks_passes malloc fx body hmem
  obtain ⟨pk, evs, hrun, ht, hms, hs, hc, hb⟩ :=
    state_at_pass_closed malloc fx hm hsize iteration hit k p
  simp only [state_at_pass] at hrun
  exact ⟨{ AllocCount := pk.allocationCount, AllocBytes := pk.allocatedBytes, iterations := k },
    pk, evs, by simp only [benchmark_body, hrun], ht, hms, hs, hc, hb, rfl⟩

/-- Below `2 ^ 53` the conversion to `double` is exact. -/
theorem to_double_exact (n : Nat) (h : n < 2 ^ 53) : to_double n = n := by
  have he : excess_bits 64 n = 0 := by
    show (if n < 2 ^ 53 then 0 else excess_bits 63 (n / 2) + 1) = 0
    rw [if_pos h]
  simp [to_double, he, Nat.mod_one]

/-- A freshly constructed fixture holds a well-formed vector. -/
theorem fixture_start_well_formed : fixture_start.values.well_formed := by
  refine ⟨le_refl _, Nat.zero_le _, fun h => absurd h (by decide)⟩

/-- The sample fixtures hold well-formed vectors. -/
theorem fixture_of_well_formed (data : List Int) (h : data.length ≤ IntVector.max_size) :
    (fixture_of data).values.well_formed :=
  ⟨le_refl _, h, fun _ => by simp [fixture_of, nullptr]⟩

/-- A pass of the list `five_mechanisms`, given the fixture, is a pass of the
list `five_passes`, and the body built from it is one of `five_benchmarks`. -/
theorem five_mechanisms_passes (malloc : Libc) (fx : CollectionLoopFixture) :
    ∀ pass ∈ five_mechanisms malloc,
      pass fx ∈ five_passes malloc fx ∧
      benchmark_body (pass fx) ∈ five_benchmarks malloc fx := by
  intro pass hmem
  simp only [five_mechanisms, List.mem_cons, List.mem_singleton, List.not_mem_nil,
    or_false] at hmem
  rcases hmem with rfl | rfl | rfl | rfl | rfl
  · exact ⟨List.mem_cons_self _ _, List.mem_cons_self _ _⟩
  · exact ⟨List.mem_cons_of_mem _ (List.mem_cons_self _ _),
      List.mem_cons_of_mem _ (List.mem_cons_self _ _)⟩
  · exact ⟨List.mem_cons_of_mem _ (List.mem_cons_of_mem _ (List.mem_cons_self _ _)),
      List.mem_cons_of_mem _ (List.mem_cons_of_mem _ (List.mem_cons_self _ _))⟩
  · exact ⟨List.mem_cons_of_mem _ (List.mem_cons_of_mem _ (List.mem_cons_of_mem _
        (List.mem_cons_self _ _))),
      List.mem_cons_of_mem _ (List.mem_cons_of_mem _ (List.mem_cons_of_mem _
        (List.mem_cons_self _ _)))⟩
  · exact ⟨List.mem_cons_of_mem _ (List.mem_cons_of_mem _ (List.mem_cons_of_mem _
        (List.mem_cons_of_mem _ (List.mem_cons_self _ _)))),
      List.mem_cons_of_mem _ (List.mem_cons_of_mem _ (List.mem_cons_of_mem _
        (List.mem_cons_of_mem _ (List.mem_cons_self _ _))))⟩

/-- On the benchmark object the `k` passes are the `k` passes over the fixture
it holds at the start, and they hand the fixture on as it was. -/
theorem run_object_eq
    (pass : CollectionLoopFixture → Process → Except Raised (List Int × Process)) :
    ∀ (k : Nat) (fx : CollectionLoopFixture) (p : Process),
      run_object pass k (fx, p) =
        match run_state (pass fx) k p with
        | .ok q => .ok (fx, q)
        | .error e => .error e := by
  intro k
  induction k with
  | zero => intro fx p; simp [run_object, run_state]
  | succ k ih =>
    intro fx p
    simp only [run_object, run_state]
    cases hp : pass fx p with
    | error e => simp
    | ok rq => simp only [ih]

/-- One entry of `state.counters`, when `std::malloc` serves: one allocation of
a node, and the value stored is the `double` nearest to the value given. -/
theorem insert_counter_spec (malloc : Libc) (hm : malloc_serves malloc) (value : Nat)
    (p : Process) :
    insert_counter malloc value p =
      .ok (to_double value,
        { allocationCount := (p.allocationCount + 1) % ULLONG_RANGE
          allocatedBytes := (p.allocatedBytes + sizeof_counter_node) % ULLONG_RANGE
          trace := p.trace ++
            [Event.malloc sizeof_counter_node (malloc p.trace sizeof_counter_node)] }) := by
  have hptr : malloc p.trace sizeof_counter_node ≠ nullptr := hm _ _ (by decide)
  simp [insert_counter, operator_new, Process.observe, hptr]

/-- The whole body after the read: the two values read are stored as `double`s,
the fixture is handed on, and the two entries cost two more allocations. -/
theorem BenchmarkCase_after_read (malloc : Libc) (hm : malloc_serves malloc)
    (pass : CollectionLoopFixture → Process → Except Raised (List Int × Process))
    (k : Nat) (fx : CollectionLoopFixture) (p : Process) (read : Counters) (qr : Process)
    (h : benchmark_body (pass fx) k p = .ok (read, qr)) :
    ∃ q after, BenchmarkCase malloc pass k fx p =
        .ok ({ AllocCount := to_double read.AllocCount,
               AllocBytes := to_double read.AllocBytes }, fx, q) ∧
      q.trace = qr.trace ++ after ∧ malloc_calls after = 2 ∧
      malloc_bytes after = 2 * sizeof_counter_node ∧
      q.allocationCount = (read.AllocCount + 2) % ULLONG_RANGE ∧
      q.allocatedBytes = (read.AllocBytes + 2 * sizeof_counter_node) % ULLONG_RANGE := by
  simp only [benchmark_body] at h
  cases hrun : run_state (pass fx) k (reset p) with
  | error e => simp [hrun] at h
  | ok pk =>
    simp only [hrun, Except.ok.injEq, Prod.mk.injEq] at h
    obtain ⟨hread, hq⟩ := h
    subst hq
    subst hread
    simp only [BenchmarkCase, run_object_eq, hrun, insert_counter_spec malloc hm]
    refine ⟨_, [Event.malloc sizeof_counter_node (malloc pk.trace sizeof_counter_node),
      Event.malloc sizeof_counter_node
        (malloc (pk.trace ++
          [Event.malloc sizeof_counter_node (malloc pk.trace sizeof_counter_node)])
          sizeof_counter_node)], rfl, ?_, ?_, ?_, ?_, ?_⟩
    · simp
    · simp [malloc_calls]
    · simp [malloc_bytes]; omega
    · simp only [ULLONG_RANGE]; omega
    · simp only [ULLONG_RANGE]; omega

/-! ## The claims

Where a claim is about code that builds a vector, the theorem assumes that
`std::malloc` serves the requests (`malloc_serves`) and that the vectors it
starts from are well formed; without memory the replaced `operator new` hands
out a null block and the code dies (see C5). -/

/-- C1: for every size `N` with `0 ≤ N ≤ INT_MAX`, when `std::malloc` serves and
the fixture holds a well-formed vector, `SetUp(N)` returns, and one pass of
each of the five benchmark bodies (`loop`, `enhancedLoop`, `iterator`,
`iteratorConstEnd`, `forEach`) over the input it built returns normally with
exactly the even integers of `[0, N)` in ascending order,
`[0, 2, ..., 2 * (⌈N/2⌉ - 1)]`, whatever the process state the pass starts in. -/
theorem output_is_ascending_evens (malloc : Libc) (hm : malloc_serves malloc)
    (fx0 : CollectionLoopFixture) (hwf : fx0.values.well_formed)
    (p0 : Process) (N : Int) (h0 : 0 ≤ N) (hN : N ≤ INT_MAX) :
    ∃ fx p1, SetUp malloc fx0 N p0 = .ok (fx, p1) ∧
      ∀ p : Process,
        (∃ q, loop_iteration malloc fx p = .ok (evens N.toNat, q)) ∧
        (∃ q, enhancedLoop_iteration malloc fx p = .ok (evens N.toNat, q)) ∧
        (∃ q, iterator_iteration malloc fx p = .ok (evens N.toNat, q)) ∧
        (∃ q, iteratorConstEnd_iteration malloc fx p = .ok (evens N.toNat, q)) ∧
        (∃ q, forEach_iteration malloc fx p = .ok (evens N.toNat, q)) := by
  obtain ⟨fx, p1, hset, _, hdata, hwf1⟩ := SetUp_data malloc hm fx0 hwf p0 N h0 hN
  have hsize : fx.values.data.length ≤ IntVector.max_size := le_trans hwf1.1 hwf1.2.1
  have hf : fx.values.data.filter even_test = evens N.toNat := by
    rw [hdata, filter_range_evens]
  refine ⟨fx, p1, hset, fun p => ?_⟩
  rw [← hf]
  exact ⟨⟨_, loop_iteration_spec malloc fx hm hsize p⟩,
    ⟨_, enhancedLoop_iteration_spec malloc fx hm hsize p⟩,
    ⟨_, iterator_iteration_spec malloc fx hm hsize p⟩,
    ⟨_, iteratorConstEnd_iteration_spec malloc fx hm hsize p⟩,
    ⟨_, forEach_iteration_spec malloc fx hm hsize p⟩⟩

/-- Witness of C1 at `N = 10`: the five results are `[0, 2, 4, 6, 8]`. -/
theorem output_is_ascending_evens_witness :
    malloc_serves malloc_fresh ∧ fixture_start.values.well_formed ∧
    (0 : Int) ≤ 10 ∧ (10 : Int) ≤ INT_MAX ∧
    ∃ fx p1, SetUp malloc_fresh fixture_start 10 process_start = .ok (fx, p1) ∧
      ∀ p : Process,
        (∃ q, loop_iteration malloc_fresh fx p = .ok ([0, 2, 4, 6, 8], q)) ∧
        (∃ q, enhancedLoop_iteration malloc_fresh fx p = .ok ([0, 2, 4, 6, 8], q)) ∧
        (∃ q, iterator_iteration malloc_fresh fx p = .ok ([0, 2, 4, 6, 8], q)) ∧
        (∃ q, iteratorConstEnd_iteration malloc_fresh fx p = .ok ([0, 2, 4, 6, 8], q)) ∧
        (∃ q, forEach_iteration malloc_fresh fx p = .ok ([0, 2, 4, 6, 8], q)) :=
  ⟨malloc_fresh_serves, fixture_start_well_formed, by decide, by decide,
    output_is_ascending_evens malloc_fresh malloc_fresh_serves fixture_start
      fixture_start_well_formed process_start 10 (by decide) (by decide)⟩

/-- C2: cross-mechanism equivalence.  For every input sequence (every content
of a well-formed vector `values`, not only `0..N-1`), when `std::malloc` serves,
there is one list that all five passes return, each started in any process
state: the five result vectors are pairwise equal. -/
theorem five_mechanisms_agree (malloc : Libc) (hm : malloc_serves malloc)
    (fx : CollectionLoopFixture) (hwf : fx.values.well_formed) :
    ∃ r : List Int, ∀ p1 p2 p3 p4 p5 : Process,
      (∃ q, loop_iteration malloc fx p1 = .ok (r, q)) ∧
      (∃ q, enhancedLoop_iteration malloc fx p2 = .ok (r, q)) ∧
      (∃ q, iterator_iteration malloc fx p3 = .ok (r, q)) ∧
      (∃ q, iteratorConstEnd_iteration malloc fx p4 = .ok (r, q)) ∧
      (∃ q, forEach_iteration malloc fx p5 = .ok (r, q)) := by
  have hsize : fx.values.size ≤ IntVector.max_size := le_trans hwf.1 hwf.2.1
  exact
    ⟨fx.values.data.filter even_test, fun _ _ _ _ _ =>
      ⟨⟨_, loop_iteration_spec malloc fx hm hsize _⟩,
       ⟨_, enhancedLoop_iteration_spec malloc fx hm hsize _⟩,
       ⟨_, iterator_iteration_spec malloc fx hm hsize _⟩,
       ⟨_, iteratorConstEnd_iteration_spec malloc fx hm hsize _⟩,
       ⟨_, forEach_iteration_spec malloc fx hm hsize _⟩⟩⟩

/-- Witness of C2: the input `[-3, -2, 4, 7, -2]`. -/
theorem five_mechanisms_agree_witness :
    malloc_serves malloc_fresh ∧
    (fixture_of [-3, -2, 4, 7, -2]).values.well_formed ∧
    ∃ r : List Int, ∀ p1 p2 p3 p4 p5 : Process,
      (∃ q, loop_iteration malloc_fresh (fixture_of [-3, -2, 4, 7, -2]) p1 = .ok (r, q)) ∧
      (∃ q, enhancedLoop_iteration malloc_fresh (fixture_of [-3, -2, 4, 7, -2]) p2 =
        .ok (r, q)) ∧
      (∃ q, iterator_iteration malloc_fresh (fixture_of [-3, -2, 4, 7, -2]) p3 = .ok (r, q)) ∧
      (∃ q, iteratorConstEnd_iteration malloc_fresh (fixture_of [-3, -2, 4, 7, -2]) p4 =
        .ok (r, q)) ∧
      (∃ q, forEach_iteration malloc_fresh (fixture_of [-3, -2, 4, 7, -2]) p5 = .ok (r, q)) :=
  ⟨malloc_fresh_serves, by decide,
    five_mechanisms_agree malloc_fresh malloc_fresh_serves (fixture_of [-3, -2, 4, 7, -2])
      (by decide)⟩

/-- C3: filter-copy contract.  For every input sequence in a well-formed vector,
negative values included (the test is the truncating `%` of C++, `Int.tmod`),
when `std::malloc` serves, each of the five passes returns the list `r` of the
input elements `v` with `v % 2 == 0`: `r` is a sublist of the input (original
relative order), every element of `r` is even (no odd element is appended),
and every even value occurs in `r` as often as in the input (no even element
is skipped). -/
theorem filter_copy_contract (malloc : Libc) (hm : malloc_serves malloc)
    (fx : CollectionLoopFixture) (hwf : fx.values.well_formed) (p : Process) :
    ∃ r : List Int,
      (∃ q, loop_iteration malloc fx p = .ok (r, q)) ∧
      (∃ q, enhancedLoop_iteration malloc fx p = .ok (r, q)) ∧
      (∃ q, iterator_iteration malloc fx p = .ok (r, q)) ∧
      (∃ q, iteratorConstEnd_iteration malloc fx p = .ok (r, q)) ∧
      (∃ q, forEach_iteration malloc fx p = .ok (r, q)) ∧
      r = fx.values.data.filter (fun v => decide (Int.tmod v 2 = 0)) ∧
      List.Sublist r fx.values.data ∧
      (∀ v ∈ r, Int.tmod v 2 = 0) ∧
      (∀ v : Int, Int.tmod v 2 = 0 → r.count v = fx.values.data.count v) ∧
      (∀ v : Int, Int.tmod v 2 ≠ 0 → r.count v = 0) ∧
      Int.tmod (-3) 2 = -1 ∧ Int.tmod (-2) 2 = 0 := by
  have hsize : fx.values.size ≤ IntVector.max_size := le_trans hwf.1 hwf.2.1
  refine ⟨fx.values.data.filter even_test, ⟨_, loop_iteration_spec malloc fx hm hsize p⟩,
    ⟨_, enhancedLoop_iteration_spec malloc fx hm hsize p⟩,
    ⟨_, iterator_iteration_spec malloc fx hm hsize p⟩,
    ⟨_, iteratorConstEnd_iteration_spec malloc fx hm hsize p⟩,
    ⟨_, forEach_iteration_spec malloc fx hm hsize p⟩,
    rfl, List.filter_sublist _, ?_, ?_, ?_, by decide, by decide⟩
  · intro v hv
    have h := (List.mem_filter.mp hv).2
    simpa [even_test] using h
  · intro v hv
    exact List.count_filter (by simpa [even_test] using hv)
  · intro v hv
    apply List.count_eq_zero.mpr
    intro hmem
    have h := (List.mem_filter.mp hmem).2
    exact hv (by simpa [even_test] using h)

/-- Witness of C3: the input `[-3, -2, 4, 7, -2]` gives `[-2, 4, -2]`. -/
theorem filter_copy_contract_witness :
    malloc_serves malloc_fresh ∧
    (fixture_of [-3, -2, 4, 7, -2]).values.well_formed ∧
    ∃ q, forEach_iteration malloc_fresh (fixture_of [-3, -2, 4, 7, -2]) process_start =
      .ok ([-2, 4, -2], q) := by
  refine ⟨malloc_fresh_serves, by decide, ?_⟩
  obtain ⟨r, _, _, _, _, h5, hr, _⟩ :=
    filter_copy_contract malloc_fresh malloc_fresh_serves (fixture_of [-3, -2, 4, 7, -2])
      (by decide) process_start
  have hval : r = [-2, 4, -2] := by rw [hr]; decide
  rw [hval] at h5
  exact h5

/-- C4: for every counter state and every byte size `s`, `operator new` returns
with `allocationCount` incremented by exactly 1 and `allocatedBytes` by exactly
`s`, both in 64-bit unsigned arithmetic (modulo `2 ^ 64`), and
`operator new[]` does the same as `operator new`. -/
theorem allocate_counts_one_call (malloc : Libc) (p : Process) (s : Nat) :
    (∃ ptr q, operator_new malloc p s = .ok (ptr, q) ∧
      q.allocationCount = (p.allocationCount + 1) % 2 ^ 64 ∧
      q.allocatedBytes = (p.allocatedBytes + s) % 2 ^ 64) ∧
    (∃ ptr q, operator_new_array malloc p s = .ok (ptr, q) ∧
      q.allocationCount = (p.allocationCount + 1) % 2 ^ 64 ∧
      q.allocatedBytes = (p.allocatedBytes + s) % 2 ^ 64) ∧
    operator_new_array malloc p s = operator_new malloc p s := by
  refine ⟨⟨_, _, rfl, rfl, rfl⟩, ⟨_, _, rfl, rfl, rfl⟩, rfl⟩

/-- C5: the code does not do what the claim says.  With `std::malloc`
exhausted, `operator new(16)` and `operator new[](16)` raise nothing: each
counts the call and returns the null pointer to its caller.  The callers are
not prepared for it: one pass of `loop` over the input `[0]`, and `SetUp(1)`,
write through the null block and end in a segmentation fault. -/
theorem exhausted_allocate_returns_null :
    malloc_exhausted process_start.trace 16 = nullptr ∧
    operator_new malloc_exhausted process_start 16 =
      .ok (nullptr, { allocationCount := 1, allocatedBytes := 16,
                      trace := [Event.malloc 16 nullptr] }) ∧
    operator_new_array malloc_exhausted process_start 16 =
      .ok (nullptr, { allocationCount := 1, allocatedBytes := 16,
                      trace := [Event.malloc 16 nullptr] }) ∧
    (∀ e, operator_new malloc_exhausted process_start 16 ≠ .error e) ∧
    (∀ e, operator_new_array malloc_exhausted process_start 16 ≠ .error e) ∧
    loop_iteration malloc_exhausted (fixture_of [0]) process_start =
      .error .segmentation_fault ∧
    SetUp malloc_exhausted fixture_start 1 process_start = .error .segmentation_fault := by
  refine ⟨rfl, rfl, rfl, ?_, ?_, ?_, ?_⟩
  · intro e h; cases h
  · intro e h; cases h
  · simp only [loop_iteration, fixture_of, IntVector.size, IntVector.empty, IntVector.reserve,
      IntVector.reallocate, operator_new, malloc_exhausted, IntVector.deallocate]
    simp only [List.length_nil, List.length_singleton, lt_irrefl, and_false, if_true, if_false,
      IntVector.max_size, Nat.lt_one_iff, Nat.zero_lt_one,
      show ¬ (2 ^ 61 - 1 < 1) by decide]
    rw [loop_for]
    simp [IntVector.at_, IntVector.push_back, IntVector.size, Process.observe]
  · have h1 : int64_to_size_t 1 = 1 := by decide
    simp only [SetUp, h1, fixture_start, IntVector.clear, IntVector.empty, IntVector.reserve,
      IntVector.reallocate, operator_new, malloc_exhausted, IntVector.deallocate]
    simp only [List.length_nil, lt_irrefl, and_false, if_true, if_false,
      IntVector.max_size, Nat.zero_lt_one, show ¬ (2 ^ 61 - 1 < 1) by decide]
    rw [SetUp_for]
    simp [IntVector.push_back, IntVector.size, Process.observe]

/-- C6 fails as stated, in two ways.  `loop` over the one-element input `[0]`,
run for `2 ^ 62` iterations, requests `2 ^ 64` bytes in all, and the value of
`allocatedBytes` read after the loop is `0`.  Run for `2 ^ 53 + 1` iterations it
makes `2 ^ 53 + 1` allocate calls, the value read is `2 ^ 53 + 1`, and the
`double` recorded as `AllocCount` is `2 ^ 53`. -/
theorem byte_total_wraps_around :
    (∃ read qr during,
      CollectionLoopFixture_loop malloc_fresh (fixture_of [0]) (2 ^ 62) process_start =
        .ok (read, qr) ∧
      qr.trace = process_start.trace ++ during ∧
      malloc_calls during = 2 ^ 62 ∧
      malloc_bytes during = 2 ^ 64 ∧
      read.AllocBytes = 0 ∧
      read.AllocBytes ≠ malloc_bytes during) ∧
    (∃ read qr during uc q,
      CollectionLoopFixture_loop malloc_fresh (fixture_of [0]) (2 ^ 53 + 1) process_start =
        .ok (read, qr) ∧
      qr.trace = process_start.trace ++ during ∧
      malloc_calls during = 2 ^ 53 + 1 ∧
      read.AllocCount = 2 ^ 53 + 1 ∧
      BenchmarkCase malloc_fresh (loop_iteration malloc_fresh) (2 ^ 53 + 1) (fixture_of [0])
        process_start = .ok (uc, fixture_of [0], q) ∧
      uc.AllocCount = 2 ^ 53 ∧
      uc.AllocCount ≠ malloc_calls during) := by
  have hsize : (fixture_of [0]).values.size = 1 := rfl
  constructor
  · obtain ⟨rep, q, evs, hrun, ht, hm, hs, _, hb, _⟩ :=
      benchmark_closed malloc_fresh (fixture_of [0]) malloc_fresh_serves (by decide)
        (CollectionLoopFixture_loop malloc_fresh (fixture_of [0])) (List.mem_cons_self _ _)
        (2 ^ 62) process_start
    rw [hsize] at hm hs hb
    have hm2 : malloc_calls evs = 2 ^ 62 := by rw [hm]; rfl
    have hs2 : malloc_bytes evs = 2 ^ 64 := by rw [hs]; rfl
    have hb2 : rep.AllocBytes = 0 := by rw [hb]; rfl
    refine ⟨rep, q, evs, hrun, ht, hm2, hs2, hb2, ?_⟩
    rw [hb2, hs2]
    decide
  · obtain ⟨rep, qr, evs, hrun, ht, hm, _, hc, _, _⟩ :=
      benchmark_closed malloc_fresh (fixture_of [0]) malloc_fresh_serves (by decide)
        (CollectionLoopFixture_loop malloc_fresh (fixture_of [0])) (List.mem_cons_self _ _)
        (2 ^ 53 + 1) process_start
    rw [hsize] at hm hc
    have hm2 : malloc_calls evs = 2 ^ 53 + 1 := by rw [hm]; rfl
    have hc2 : rep.AllocCount = 2 ^ 53 + 1 := by rw [hc]; rfl
    obtain ⟨q, _, hcase, _⟩ :=
      BenchmarkCase_after_read malloc_fresh malloc_fresh_serves (loop_iteration malloc_fresh)
        (2 ^ 53 + 1) (fixture_of [0]) process_start rep qr hrun
    have hd : to_double rep.AllocCount = 2 ^ 53 := by rw [hc2]; rfl
    refine ⟨rep, qr, evs, _, q, hrun, ht, hm2, hc2, hcase, hd, ?_⟩
    show to_double rep.AllocCount ≠ malloc_calls evs
    rw [hd, hm2]
    decide

/-- C6, amended: for each of the five benchmark bodies, every well-formed input
vector, every iteration count `k` and every counter state held before the body
starts, when `std::malloc` serves: the body returns; the values of
`allocationCount` and `allocatedBytes` read after the iteration loop are the
number of allocate calls made during the `k` iterations and the sum of their
requested sizes (`k` calls of `size * sizeof(int)` bytes for a non-empty input,
none for an empty one), reduced modulo `2 ^ 64`: those numbers themselves when
`k < 2 ^ 64`, respectively `k * size * sizeof(int) < 2 ^ 64`.  `AllocCount` and
`AllocBytes` record the `double`s nearest to the values read, which are those
numbers themselves when `k < 2 ^ 53`, respectively
`k * size * sizeof(int) < 2 ^ 53`.  Nothing from before the reset is included,
and neither are the two allocations that the entries of `state.counters` cost
after the read. -/
theorem counters_hold_region_totals (malloc : Libc) (hm : malloc_serves malloc)
    (fx : CollectionLoopFixture) (hwf : fx.values.well_formed) (k : Nat)
    (p : Process) :
    ∀ pass ∈ five_mechanisms malloc,
      benchmark_body (pass fx) ∈ five_benchmarks malloc fx ∧
      ∃ read qr during uc q after,
        benchmark_body (pass fx) k p = .ok (read, qr) ∧ qr.trace = p.trace ++ during ∧
        malloc_calls during = k * pass_allocs fx.values.size ∧
        malloc_bytes during = k * (fx.values.size * sizeof_int) ∧
        read.AllocCount = malloc_calls during % 2 ^ 64 ∧
        read.AllocBytes = malloc_bytes during % 2 ^ 64 ∧
        (k < 2 ^ 64 → read.AllocCount = malloc_calls during) ∧
        (k * (fx.values.size * sizeof_int) < 2 ^ 64 → read.AllocBytes = malloc_bytes during) ∧
        BenchmarkCase malloc pass k fx p = .ok (uc, fx, q) ∧
        q.trace = p.trace ++ during ++ after ∧ malloc_calls after = 2 ∧
        uc.AllocCount = to_double read.AllocCount ∧
        uc.AllocBytes = to_double read.AllocBytes ∧
        (k < 2 ^ 53 → uc.AllocCount = malloc_calls during) ∧
        (k * (fx.values.size * sizeof_int) < 2 ^ 53 → uc.AllocBytes = malloc_bytes during) := by
  have hsize : fx.values.size ≤ IntVector.max_size := le_trans hwf.1 hwf.2.1
  intro pass hmem
  obtain ⟨hpass, hbody⟩ := five_mechanisms_passes malloc fx pass hmem
  obtain ⟨read, qr, evs, hrun, ht, hmc, hmb, hc, hb, _⟩ :=
    benchmark_closed malloc fx hm hsize _ hbody k p
  obtain ⟨q, after, hcase, hqt, hafter, _⟩ :=
    BenchmarkCase_after_read malloc hm pass k fx p read qr hrun
  simp only [ULLONG_RANGE] at hc hb
  have hle : k * pass_allocs fx.values.size ≤ k := by
    unfold pass_allocs
    split <;> simp
  have hcount : k < 2 ^ 64 → read.AllocCount = malloc_calls evs := by
    intro hk
    rw [hmc, hc]
    exact Nat.mod_eq_of_lt (lt_of_le_of_lt hle hk)
  have hbytes : k * (fx.values.size * sizeof_int) < 2 ^ 64 →
      read.AllocBytes = malloc_bytes evs := by
    intro hk
    rw [hmb, hb]
    exact Nat.mod_eq_of_lt hk
  refine ⟨hbody, read, qr, evs, _, q, after, hrun, ht, hmc, hmb, ?_, ?_, hcount, hbytes, hcase, ?_,
    hafter, rfl, rfl, ?_, ?_⟩
  · rw [hmc]; exact hc
  · rw [hmb]; exact hb
  · rw [hqt, ht]
  · intro hk
    show to_double read.AllocCount = malloc_calls evs
    rw [hcount (by omega), to_double_exact]
    rw [hmc]
    exact lt_of_le_of_lt hle hk
  · intro hk
    show to_double read.AllocBytes = malloc_bytes evs
    rw [hbytes (by omega), to_double_exact]
    rw [hmb]
    exact hk

/-- Witness of C6, amended: `loop` over `[0, 1, 2]` for three iterations
records 3 and 36. -/
theorem counters_hold_region_totals_witness :
    malloc_serves malloc_fresh ∧
    (fixture_of [0, 1, 2]).values.well_formed ∧
    loop_iteration malloc_fresh ∈ five_mechanisms malloc_fresh ∧
    ∃ uc q, BenchmarkCase malloc_fresh (loop_iteration malloc_fresh) 3 (fixture_of [0, 1, 2])
        process_start = .ok (uc, fixture_of [0, 1, 2], q) ∧
      uc.AllocCount = 3 ∧ uc.AllocBytes = 36 := by
  refine ⟨malloc_fresh_serves, by decide, List.mem_cons_self _ _, ?_⟩
  obtain ⟨_, read, qr, during, uc, q, after, _, _, hmc, hmb, _, _, _, _, hcase, _, _, _, _,
      hc, hb⟩ :=
    counters_hold_region_totals malloc_fresh malloc_fresh_serves (fixture_of [0, 1, 2])
      (by decide) 3 process_start (loop_iteration malloc_fresh) (List.mem_cons_self _ _)
  refine ⟨uc, q, hcase, ?_, ?_⟩
  · rw [hc (by decide), hmc]; rfl
  · rw [hb (by decide), hmb]; rfl

/-- C7 fails as stated: in `loop` over the one-element input `[0]`, the second
pass (pass number 1) starts with `allocationCount = 1` and
`allocatedBytes = 4`, not with zeros. -/
theorem second_pass_starts_nonzero :
    ∃ q, state_at_pass (loop_iteration malloc_fresh (fixture_of [0])) 1 process_start = .ok q ∧
      run_state (loop_iteration malloc_fresh (fixture_of [0])) 2 (reset process_start) =
        run_state (loop_iteration malloc_fresh (fixture_of [0])) 1 q ∧
      q.allocationCount = 1 ∧ q.allocatedBytes = 4 ∧
      ¬ (q.allocationCount = 0 ∧ q.allocatedBytes = 0) := by
  obtain ⟨q, evs, hrun, _, _, _, hc, hb⟩ :=
    state_at_pass_closed malloc_fresh (fixture_of [0]) malloc_fresh_serves (by decide)
      (loop_iteration malloc_fresh (fixture_of [0])) (List.mem_cons_self _ _) 1 process_start
  have hsize : (fixture_of [0]).values.size = 1 := rfl
  rw [hsize] at hc hb
  have hc2 : q.allocationCount = 1 := by rw [hc]; rfl
  have hb2 : q.allocatedBytes = 4 := by rw [hb]; rfl
  refine ⟨q, hrun, run_state_split _ 1 1 _ q hrun, hc2, hb2, ?_⟩
  intro h
  rw [hc2] at h
  exact absurd h.1 (by decide)

/-- C7, amended: the reset happens once per run of a benchmark body, before the
`for (auto _ : state)` loop, not once per iteration.  In every body, for every
well-formed input vector and every `k`, when `std::malloc` serves, pass number
`j < k` starts, the remaining `k - j` passes continue from its start state, and
at that start `allocationCount` is `j * a mod 2 ^ 64` and `allocatedBytes` is
`j * size * sizeof(int) mod 2 ^ 64`, where `a` is one for a non-empty input and
zero for an empty one.  So both are zero at the start of the first pass, both
are zero at the start of every pass when the input is empty, and
`allocationCount` is `j`, not zero, at the start of every later pass
`0 < j < 2 ^ 64` when the input is not empty. -/
theorem counters_at_pass_start (malloc : Libc) (hm : malloc_serves malloc)
    (fx : CollectionLoopFixture) (hwf : fx.values.well_formed) (k j : Nat)
    (p : Process) (hj : j < k) :
    ∀ iteration ∈ five_passes malloc fx,
      benchmark_body iteration ∈ five_benchmarks malloc fx ∧
      ∃ pj, state_at_pass iteration j p = .ok pj ∧
        run_state iteration k (reset p) = run_state iteration (k - j) pj ∧
        pj.allocationCount = (j * pass_allocs fx.values.size) % 2 ^ 64 ∧
        pj.allocatedBytes = (j * (fx.values.size * sizeof_int)) % 2 ^ 64 ∧
        (j = 0 → pj.allocationCount = 0 ∧ pj.allocatedBytes = 0) ∧
        (fx.values.size = 0 → pj.allocationCount = 0 ∧ pj.allocatedBytes = 0) ∧
        (0 < fx.values.size → 0 < j → j < 2 ^ 64 →
          pj.allocationCount = j ∧ pj.allocationCount ≠ 0) := by
  have hsize : fx.values.size ≤ IntVector.max_size := le_trans hwf.1 hwf.2.1
  intro iteration hit
  obtain ⟨pj, evs, hrun, _, _, _, hc, hb⟩ :=
    state_at_pass_closed malloc fx hm hsize iteration hit j p
  simp only [ULLONG_RANGE] at hc hb
  refine ⟨benchmark_of_pass_mem malloc fx iteration hit, pj, hrun, ?_, hc, hb, ?_, ?_, ?_⟩
  · have hk : k = j + (k - j) := by omega
    conv_lhs => rw [hk]
    exact run_state_split iteration j (k - j) (reset p) pj hrun
  · intro h0
    subst h0
    simp [hc, hb]
  · intro h0
    simp [hc, hb, h0, pass_allocs]
  · intro hpos hj0 hj64
    have ha : pass_allocs fx.values.size = 1 := by
      unfold pass_allocs
      rw [if_pos hpos]
    rw [ha, Nat.mul_one, Nat.mod_eq_of_lt hj64] at hc
    exact ⟨hc, by omega⟩

/-- Witness of C7, amended: the third of three passes of `loop` over
`[0, 1, 2]` starts with the counters at 2 and 24. -/
theorem counters_at_pass_start_witness :
    malloc_serves malloc_fresh ∧
    (fixture_of [0, 1, 2]).values.well_formed ∧ 2 < 3 ∧
    loop_iteration malloc_fresh (fixture_of [0, 1, 2]) ∈
      five_passes malloc_fresh (fixture_of [0, 1, 2]) ∧
    ∃ pj, state_at_pass (loop_iteration malloc_fresh (fixture_of [0, 1, 2])) 2 process_start =
        .ok pj ∧
      run_state (loop_iteration malloc_fresh (fixture_of [0, 1, 2])) 3 (reset process_start) =
        run_state (loop_iteration malloc_fresh (fixture_of [0, 1, 2])) (3 - 2) pj ∧
      pj.allocationCount = 2 ∧ pj.allocatedBytes = 24 := by
  refine ⟨malloc_fresh_serves, by decide, by decide, List.mem_cons_self _ _, ?_⟩
  obtain ⟨_, pj, hrun, hsplit, hc, hb, _⟩ :=
    counters_at_pass_start malloc_fresh malloc_fresh_serves (fixture_of [0, 1, 2]) (by decide)
      3 2 process_start (by decide) _ (List.mem_cons_self _ _)
  exact ⟨pj, hrun, hsplit, by rw [hc]; rfl, by rw [hb]; rfl⟩

/-- C8: `operator delete` and `operator delete[]` leave `allocationCount` and
`allocatedBytes` of every counter state unchanged, for every handle.  Over any
sequence of allocate and release calls without a reset and without 64-bit
wraparound, both counters never decrease from one point of the sequence to a
later one, `allocationCount` grows by the number of allocate calls in the
sequence (so it equals that number when it starts at zero) and
`allocatedBytes` by the sum of their sizes. -/
theorem release_leaves_counters (malloc : Libc) (p : Process) (calls : List HeapCall)
    (hcount : p.allocationCount + allocate_calls calls < 2 ^ 64)
    (hbytes : p.allocatedBytes + requested_bytes calls < 2 ^ 64) :
    (∀ (q : Process) (ptr : Ptr),
      (operator_delete q ptr).allocationCount = q.allocationCount ∧
      (operator_delete q ptr).allocatedBytes = q.allocatedBytes ∧
      (operator_delete_array q ptr).allocationCount = q.allocationCount ∧
      (operator_delete_array q ptr).allocatedBytes = q.allocatedBytes) ∧
    (∀ xs ys zs : List HeapCall, calls = xs ++ ys ++ zs →
      (run_calls malloc p xs).allocationCount ≤ (run_calls malloc p (xs ++ ys)).allocationCount ∧
      (run_calls malloc p xs).allocatedBytes ≤ (run_calls malloc p (xs ++ ys)).allocatedBytes) ∧
    (run_calls malloc p calls).allocationCount = p.allocationCount + allocate_calls calls ∧
    (run_calls malloc p calls).allocatedBytes = p.allocatedBytes + requested_bytes calls ∧
    (run_calls malloc (reset p) calls).allocationCount = allocate_calls calls := by
  refine ⟨fun q ptr => ⟨rfl, rfl, rfl, rfl⟩, ?_, ?_, ?_, ?_⟩
  · intro xs ys zs hsplit
    have ha : allocate_calls calls =
        allocate_calls xs + allocate_calls ys + allocate_calls zs := by
      rw [hsplit, allocate_calls_append, allocate_calls_append]
    have hr : requested_bytes calls =
        requested_bytes xs + requested_bytes ys + requested_bytes zs := by
      rw [hsplit, requested_bytes_append, requested_bytes_append]
    obtain ⟨h1, h2⟩ := run_calls_totals malloc xs p (by omega) (by omega)
    obtain ⟨h3, h4⟩ := run_calls_totals malloc (xs ++ ys) p
      (by rw [allocate_calls_append]; omega) (by rw [requested_bytes_append]; omega)
    rw [allocate_calls_append] at h3
    rw [requested_bytes_append] at h4
    omega
  · exact (run_calls_totals malloc calls p hcount hbytes).1
  · exact (run_calls_totals malloc calls p hcount hbytes).2
  · have h := (run_calls_totals malloc calls (reset p) (by simp only [reset]; omega)
      (by simp only [reset]; omega)).1
    simpa [reset] using h

/-- Witness of C8: allocate 8, release, allocate 24 with `new[]`, release with
`delete[]`, starting from zeroed counters. -/
theorem release_leaves_counters_witness :
    (process_start.allocationCount +
        allocate_calls [.new 8, .delete 1, .new_array 24, .delete_array 2] < 2 ^ 64 ∧
      process_start.allocatedBytes +
        requested_bytes [.new 8, .delete 1, .new_array 24, .delete_array 2] < 2 ^ 64) ∧
    (run_calls malloc_fresh process_start
      [.new 8, .delete 1, .new_array 24, .delete_array 2]).allocationCount =
        process_start.allocationCount +
          allocate_calls [.new 8, .delete 1, .new_array 24, .delete_array 2] :=
  ⟨⟨by decide, by decide⟩,
    (release_leaves_counters malloc_fresh process_start
      [.new 8, .delete 1, .new_array 24, .delete_array 2] (by decide) (by decide)).2.2.1⟩

/-- C9 fails as stated, in two ways.  For `loop` over the one-element input
`[0]`, one iteration leaves `allocatedBytes = 4` and `2 ^ 62` iterations leave
`allocatedBytes = 0`, which is not `2 ^ 62` times 4.  For `loop` over a
three-element input, one iteration records `AllocBytes = 12` and `2 ^ 53 + 1`
iterations record `AllocBytes = 12 * 2 ^ 53 + 16`, which is not `2 ^ 53 + 1`
times 12, so that the average is not 12. -/
theorem total_is_not_k_times_one_pass :
    (∃ one q1 tot qk,
      CollectionLoopFixture_loop malloc_fresh (fixture_of [0]) 1 process_start = .ok (one, q1) ∧
      CollectionLoopFixture_loop malloc_fresh (fixture_of [0]) (2 ^ 62) process_start =
        .ok (tot, qk) ∧
      one.AllocBytes = 4 ∧ tot.AllocBytes = 0 ∧
      tot.AllocBytes ≠ 2 ^ 62 * one.AllocBytes ∧
      tot.AllocBytes / 2 ^ 62 ≠ one.AllocBytes / 1) ∧
    (∃ one q1 tot qk,
      BenchmarkCase malloc_fresh (loop_iteration malloc_fresh) 1 (fixture_of [0, 1, 2])
        process_start = .ok (one, fixture_of [0, 1, 2], q1) ∧
      BenchmarkCase malloc_fresh (loop_iteration malloc_fresh) (2 ^ 53 + 1)
        (fixture_of [0, 1, 2]) process_start = .ok (tot, fixture_of [0, 1, 2], qk) ∧
      one.AllocBytes = 12 ∧ tot.AllocBytes = 12 * 2 ^ 53 + 16 ∧
      tot.AllocBytes ≠ (2 ^ 53 + 1) * one.AllocBytes) := by
  constructor
  · obtain ⟨one, q1, _, hrun1, _, _, _, _, hb1, _⟩ :=
      benchmark_closed malloc_fresh (fixture_of [0]) malloc_fresh_serves (by decide)
        (CollectionLoopFixture_loop malloc_fresh (fixture_of [0])) (List.mem_cons_self _ _)
        1 process_start
    obtain ⟨tot, qk, _, hrunk, _, _, _, _, hbk, _⟩ :=
      benchmark_closed malloc_fresh (fixture_of [0]) malloc_fresh_serves (by decide)
        (CollectionLoopFixture_loop malloc_fresh (fixture_of [0])) (List.mem_cons_self _ _)
        (2 ^ 62) process_start
    have hsize : (fixture_of [0]).values.size = 1 := rfl
    rw [hsize] at hb1 hbk
    have h1 : one.AllocBytes = 4 := by rw [hb1]; rfl
    have hk : tot.AllocBytes = 0 := by rw [hbk]; rfl
    refine ⟨one, q1, tot, qk, hrun1, hrunk, h1, hk, ?_, ?_⟩
    · rw [h1, hk]; decide
    · rw [h1, hk]; decide
  · obtain ⟨one, r1, _, hrun1, _, _, _, _, hb1, _⟩ :=
      benchmark_closed malloc_fresh (fixture_of [0, 1, 2]) malloc_fresh_serves (by decide)
        (CollectionLoopFixture_loop malloc_fresh (fixture_of [0, 1, 2]))
        (List.mem_cons_self _ _) 1 process_start
    obtain ⟨tot, rk, _, hrunk, _, _, _, _, hbk, _⟩ :=
      benchmark_closed malloc_fresh (fixture_of [0, 1, 2]) malloc_fresh_serves (by decide)
        (CollectionLoopFixture_loop malloc_fresh (fixture_of [0, 1, 2]))
        (List.mem_cons_self _ _) (2 ^ 53 + 1) process_start
    have hsize : (fixture_of [0, 1, 2]).values.size = 3 := rfl
    rw [hsize] at hb1 hbk
    obtain ⟨q1, _, hcase1, _⟩ :=
      BenchmarkCase_after_read malloc_fresh malloc_fresh_serves (loop_iteration malloc_fresh)
        1 (fixture_of [0, 1, 2]) process_start one r1 hrun1
    obtain ⟨qk, _, hcasek, _⟩ :=
      BenchmarkCase_after_read malloc_fresh malloc_fresh_serves (loop_iteration malloc_fresh)
        (2 ^ 53 + 1) (fixture_of [0, 1, 2]) process_start tot rk hrunk
    have h1 : to_double one.AllocBytes = 12 := by rw [hb1]; rfl
    have hk : to_double tot.AllocBytes = 12 * 2 ^ 53 + 16 := by rw [hbk]; rfl
    refine ⟨_, q1, _, qk, hcase1, hcasek, h1, hk, ?_⟩
    show to_double tot.AllocBytes ≠ (2 ^ 53 + 1) * to_double one.AllocBytes
    rw [h1, hk]
    decide

/-- C9, amended: for a fixed benchmark body and well-formed input vector, when
`std::malloc` serves, every pass adds the same amount to `allocationCount` and
to `allocatedBytes` in 64-bit unsigned arithmetic, namely the values `one` read
after a single iteration.  Hence for every `k ≥ 1` the values read after `k`
iterations are `k` times those of one iteration modulo `2 ^ 64`.  The values
recorded as `AllocCount` and `AllocBytes` are `k` times those recorded after
one iteration, and the quotient total / k is the one-iteration value, when
`k < 2 ^ 53` for the count and `k * size * sizeof(int) < 2 ^ 53` for the bytes,
the range in which the recorded `double`s are exact. -/
theorem per_pass_allocation_constant (malloc : Libc) (hm : malloc_serves malloc)
    (fx : CollectionLoopFixture) (hwf : fx.values.well_formed) (k : Nat)
    (p p1 : Process) (hk : 1 ≤ k) :
    ∀ pass ∈ five_mechanisms malloc,
      benchmark_body (pass fx) ∈ five_benchmarks malloc fx ∧
      ∃ one q1 tot qk uone r1 utot rk,
        benchmark_body (pass fx) 1 p1 = .ok (one, q1) ∧
        benchmark_body (pass fx) k p = .ok (tot, qk) ∧
        (∀ j : Nat, ∃ pj pj1,
          state_at_pass (pass fx) j p = .ok pj ∧
          state_at_pass (pass fx) (j + 1) p = .ok pj1 ∧
          pj1.allocationCount = (pj.allocationCount + one.AllocCount) % 2 ^ 64 ∧
          pj1.allocatedBytes = (pj.allocatedBytes + one.AllocBytes) % 2 ^ 64) ∧
        tot.AllocCount = (k * one.AllocCount) % 2 ^ 64 ∧
        tot.AllocBytes = (k * one.AllocBytes) % 2 ^ 64 ∧
        BenchmarkCase malloc pass 1 fx p1 = .ok (uone, fx, r1) ∧
        BenchmarkCase malloc pass k fx p = .ok (utot, fx, rk) ∧
        uone.AllocCount = to_double one.AllocCount ∧
        uone.AllocBytes = to_double one.AllocBytes ∧
        utot.AllocCount = to_double tot.AllocCount ∧
        utot.AllocBytes = to_double tot.AllocBytes ∧
        (k < 2 ^ 53 →
          utot.AllocCount = k * uone.AllocCount ∧ utot.AllocCount / k = uone.AllocCount) ∧
        (k * (fx.values.size * sizeof_int) < 2 ^ 53 →
          utot.AllocBytes = k * uone.AllocBytes ∧ utot.AllocBytes / k = uone.AllocBytes) := by
  have hsize : fx.values.size ≤ IntVector.max_size := le_trans hwf.1 hwf.2.1
  intro pass hmem
  obtain ⟨hit, hbody⟩ := five_mechanisms_passes malloc fx pass hmem
  obtain ⟨s1, _, hrun1, _, _, _, hc1, hb1⟩ :=
    state_at_pass_closed malloc fx hm hsize (pass fx) hit 1 p1
  obtain ⟨sk, _, hrunk, _, _, _, hck, hbk⟩ :=
    state_at_pass_closed malloc fx hm hsize (pass fx) hit k p
  simp only [state_at_pass] at hrun1 hrunk
  simp only [ULLONG_RANGE, Nat.one_mul] at hc1 hb1 hck hbk
  have ha : pass_allocs fx.values.size ≤ 1 := by
    unfold pass_allocs
    split <;> simp
  have hc1 : s1.allocationCount = pass_allocs fx.values.size := by
    rw [hc1]; exact Nat.mod_eq_of_lt (by omega)
  have hbody1 : benchmark_body (pass fx) 1 p1 =
      .ok ({ AllocCount := s1.allocationCount, AllocBytes := s1.allocatedBytes,
             iterations := 1 }, s1) := by
    simp only [benchmark_body, hrun1]
  have hbodyk : benchmark_body (pass fx) k p =
      .ok ({ AllocCount := sk.allocationCount, AllocBytes := sk.allocatedBytes,
             iterations := k }, sk) := by
    simp only [benchmark_body, hrunk]
  obtain ⟨r1, _, hcase1, _⟩ := BenchmarkCase_after_read malloc hm pass 1 fx p1 _ _ hbody1
  obtain ⟨rk, _, hcasek, _⟩ := BenchmarkCase_after_read malloc hm pass k fx p _ _ hbodyk
  have hle : k * pass_allocs fx.values.size ≤ k := by
    calc k * pass_allocs fx.values.size ≤ k * 1 := Nat.mul_le_mul_left k ha
      _ = k := Nat.mul_one k
  refine ⟨hbody, _, s1, _, sk, _, r1, _, rk, hbody1, hbodyk, ?_, ?_, ?_, hcase1, hcasek,
    rfl, rfl, rfl, rfl, ?_, ?_⟩
  · intro j
    obtain ⟨pj, _, hj, _, _, _, hcj, hbj⟩ :=
      state_at_pass_closed malloc fx hm hsize (pass fx) hit j p
    obtain ⟨pj1, _, hj1, _, _, _, hcj1, hbj1⟩ :=
      state_at_pass_closed malloc fx hm hsize (pass fx) hit (j + 1) p
    simp only [ULLONG_RANGE] at hcj hbj hcj1 hbj1
    refine ⟨pj, pj1, hj, hj1, ?_, ?_⟩
    · show pj1.allocationCount = (pj.allocationCount + s1.allocationCount) % 2 ^ 64
      rw [hcj1, hcj, hc1, Nat.succ_mul, Nat.mod_add_mod]
    · show pj1.allocatedBytes = (pj.allocatedBytes + s1.allocatedBytes) % 2 ^ 64
      rw [hbj1, hbj, hb1, Nat.succ_mul, Nat.mod_add_mod, Nat.add_mod_mod]
  · show sk.allocationCount = (k * s1.allocationCount) % 2 ^ 64
    rw [hck, hc1]
  · show sk.allocatedBytes = (k * s1.allocatedBytes) % 2 ^ 64
    rw [hbk, hb1, Nat.mul_mod_mod]
  · intro hlt
    show to_double sk.allocationCount = k * to_double s1.allocationCount ∧
      to_double sk.allocationCount / k = to_double s1.allocationCount
    have hval : sk.allocationCount = k * pass_allocs fx.values.size := by
      rw [hck]; exact Nat.mod_eq_of_lt (by omega)
    rw [hval, hc1, to_double_exact _ (by omega), to_double_exact _ (by omega)]
    exact ⟨rfl, Nat.mul_div_cancel_left _ (by omega)⟩
  · intro hlt
    show to_double sk.allocatedBytes = k * to_double s1.allocatedBytes ∧
      to_double sk.allocatedBytes / k = to_double s1.allocatedBytes
    have hone : fx.values.size * sizeof_int < 2 ^ 53 := by
      calc fx.values.size * sizeof_int = 1 * (fx.values.size * sizeof_int) := (Nat.one_mul _).symm
        _ ≤ k * (fx.values.size * sizeof_int) := Nat.mul_le_mul_right _ hk
        _ < 2 ^ 53 := hlt
    have hb1v : s1.allocatedBytes = fx.values.size * sizeof_int := by
      rw [hb1]; exact Nat.mod_eq_of_lt (by omega)
    have hval : sk.allocatedBytes = k * (fx.values.size * sizeof_int) := by
      rw [hbk]; exact Nat.mod_eq_of_lt (by omega)
    rw [hval, hb1v, to_double_exact _ hlt, to_double_exact _ hone]
    exact ⟨rfl, Nat.mul_div_cancel_left _ (by omega)⟩

/-- Witness of C9, amended: `enhancedLoop` over `[0, 1, 2]`, five iterations
against one. -/
theorem per_pass_allocation_constant_witness :
    malloc_serves malloc_fresh ∧
    (fixture_of [0, 1, 2]).values.well_formed ∧ 1 ≤ 5 ∧
    enhancedLoop_iteration malloc_fresh ∈ five_mechanisms malloc_fresh ∧
    ∃ uone r1 utot rk,
      BenchmarkCase malloc_fresh (enhancedLoop_iteration malloc_fresh) 1 (fixture_of [0, 1, 2])
        process_start = .ok (uone, fixture_of [0, 1, 2], r1) ∧
      BenchmarkCase malloc_fresh (enhancedLoop_iteration malloc_fresh) 5 (fixture_of [0, 1, 2])
        process_start = .ok (utot, fixture_of [0, 1, 2], rk) ∧
      utot.AllocCount = 5 * uone.AllocCount ∧ utot.AllocBytes = 5 * uone.AllocBytes := by
  have hmem : enhancedLoop_iteration malloc_fresh ∈ five_mechanisms malloc_fresh := by
    simp [five_mechanisms]
  refine ⟨malloc_fresh_serves, by decide, by decide, hmem, ?_⟩
  obtain ⟨_, _, _, _, _, uone, r1, utot, rk, _, _, _, _, _, h1, hk, _, _, _, _, hc, hb⟩ :=
    per_pass_allocation_constant malloc_fresh malloc_fresh_serves (fixture_of [0, 1, 2])
      (by decide) 5 process_start process_start (by decide) _ hmem
  exact ⟨uone, r1, utot, rk, h1, hk, (hc (by decide)).1, (hb (by decide)).1⟩

/-- C10: boundary `N = 0`.  `SetUp(0)` returns with an empty input sequence,
whatever the fixture held before.  On that input each of the five passes,
started right after the reset, returns normally (no `out_of_range`, no other
error) with an empty result, zero counters and an unchanged log: no read, no
evaluation of the test, no `push_back`, no allocation and no release took
place.  Each benchmark body run for one iteration reads `AllocCount = 0` and
`AllocBytes = 0`. -/
theorem empty_input_boundary (malloc : Libc) (fx0 : CollectionLoopFixture) (p0 : Process) :
    ∃ fx p1, SetUp malloc fx0 0 p0 = .ok (fx, p1) ∧ fx.values.data = [] ∧
      (∀ (p : Process), ∀ iteration ∈ five_passes malloc fx,
        ∃ q, iteration (reset p) = .ok ([], q) ∧ q.trace = p.trace ∧
          q.allocationCount = 0 ∧ q.allocatedBytes = 0) ∧
      (∀ (p : Process), ∀ body ∈ five_benchmarks malloc fx,
        ∃ q, body 1 p = .ok ({ AllocCount := 0, AllocBytes := 0, iterations := 1 }, q) ∧
          q.trace = p.trace) := by
  have hnil : ({ loopIterations := 0, values := fx0.values.clear } :
      CollectionLoopFixture).values.data = [] := rfl
  have hpass := fun (p : Process) => fun iteration hit =>
    five_passes_empty malloc _ hnil iteration hit (reset p)
  refine ⟨_, _, SetUp_zero malloc fx0 p0, hnil, ?_, ?_⟩
  · intro p iteration hit
    exact ⟨reset p, hpass p iteration hit, rfl, rfl, rfl⟩
  · intro p body hmem
    obtain ⟨iteration, hit, rfl⟩ := five_benchmarks_passes malloc _ body hmem
    refine ⟨reset p, ?_, rfl⟩
    simp only [benchmark_body, run_state, hpass p iteration hit]
    rfl

/-- C11: for every well-formed input vector of at least one element (every size
`N ≥ 1`) and each of the five benchmark bodies, when `std::malloc` serves, one
pass performs an allocation for the storage of the result, the `reserve`
request of `size * sizeof(int)` bytes, which is the first thing it logs; hence
`allocationCount` read after `k ≥ 1` iterations is at least `k`, whichever
traversal is used.  The iteration count is a 64-bit quantity (`k < 2 ^ 64`). -/
theorem at_least_one_allocation_per_pass (malloc : Libc) (hm : malloc_serves malloc)
    (fx : CollectionLoopFixture) (hwf : fx.values.well_formed)
    (k : Nat) (hn : 1 ≤ fx.values.size) (hk1 : 1 ≤ k) (hk : k < 2 ^ 64) :
    (∀ (p : Process), ∀ iteration ∈ five_passes malloc fx,
      ∃ r q ptr rest, iteration p = .ok (r, q) ∧
        q.trace = p.trace ++ Event.malloc (fx.values.size * sizeof_int) ptr :: rest ∧
        1 ≤ malloc_calls (Event.malloc (fx.values.size * sizeof_int) ptr :: rest)) ∧
    (∀ (p : Process), ∀ body ∈ five_benchmarks malloc fx,
      ∃ rep q, body k p = .ok (rep, q) ∧ k ≤ rep.AllocCount ∧ 1 ≤ rep.AllocCount) := by
  have hsize : fx.values.size ≤ IntVector.max_size := le_trans hwf.1 hwf.2.1
  have hn2 : 0 < fx.values.data.length := hn
  constructor
  · intro p iteration hit
    obtain ⟨visit, _, _, hiter⟩ := five_passes_closed malloc fx hm hsize iteration hit
    refine ⟨_, _, malloc p.trace (fx.values.size * sizeof_int),
      visit ++ (if malloc p.trace (fx.values.size * sizeof_int) = nullptr then []
        else [Event.free (malloc p.trace (fx.values.size * sizeof_int))]), hiter p, ?_, ?_⟩
    · simp [pass_result, hn2, IntVector.size]
    · simp [malloc_calls]
  · intro p body hmem
    obtain ⟨rep, q, _, hrun, _, _, _, hc, _, _⟩ := benchmark_closed malloc fx hm hsize body hmem k p
    have ha : pass_allocs fx.values.size = 1 := by
      unfold pass_allocs
      rw [if_pos (show 0 < fx.values.size from hn)]
    rw [ha, Nat.mul_one] at hc
    simp only [ULLONG_RANGE] at hc
    rw [Nat.mod_eq_of_lt hk] at hc
    exact ⟨rep, q, hrun, by omega, by omega⟩

/-- Witness of C11 at `N = 100`, three iterations. -/
theorem at_least_one_allocation_per_pass_witness :
    malloc_serves malloc_fresh ∧ (fixture_upto 100).values.well_formed ∧
    1 ≤ (fixture_upto 100).values.size ∧ 1 ≤ 3 ∧ 3 < 2 ^ 64 ∧
    ∀ (p : Process), ∀ body ∈ five_benchmarks malloc_fresh (fixture_upto 100),
      ∃ rep q, body 3 p = .ok (rep, q) ∧ 3 ≤ rep.AllocCount ∧ 1 ≤ rep.AllocCount :=
  ⟨malloc_fresh_serves, by decide, by decide, by decide, by decide,
    (at_least_one_allocation_per_pass malloc_fresh malloc_fresh_serves (fixture_upto 100)
      (by decide) 3 (by decide) (by decide) (by decide)).2⟩

/-- C12: fixture lifecycle.  For every `N` with `0 ≤ N ≤ INT_MAX` and every
prior content of the fixture (any well-formed vector, what an earlier `SetUp`
of another size left included), when `std::malloc` serves, `SetUp(N)` returns
and leaves `values` a well-formed vector equal to `0, 1, ..., N - 1`:
its length is exactly `N`, `values[i] == i` for every `i < N`, and the elements
ascend strictly.  `TearDown` leaves `values` empty, after this `SetUp` and
after anything else. -/
theorem fixture_lifecycle (malloc : Libc) (hm : malloc_serves malloc)
    (fx0 : CollectionLoopFixture) (hwf : fx0.values.well_formed) (p0 : Process)
    (N : Int) (h0 : 0 ≤ N) (hN : N ≤ INT_MAX) :
    ∃ fx p1, SetUp malloc fx0 N p0 = .ok (fx, p1) ∧
      fx.loopIterations = N.toNat ∧
      fx.values.data = (List.range N.toNat).map (fun (i : Nat) => (i : Int)) ∧
      fx.values.size = N.toNat ∧
      (∀ i : Nat, i < N.toNat → fx.values.data[i]? = some (i : Int)) ∧
      List.Pairwise (fun a b => a < b) fx.values.data ∧
      fx.values.well_formed ∧
      (TearDown fx).values.data = [] ∧
      (∀ fx1 : CollectionLoopFixture, (TearDown fx1).values.data = []) := by
  obtain ⟨fx, p1, hset, hloop, hdata, hwf1⟩ := SetUp_data malloc hm fx0 hwf p0 N h0 hN
  refine ⟨fx, p1, hset, hloop, hdata, ?_, ?_, ?_, hwf1, rfl, fun _ => rfl⟩
  · simp [IntVector.size, hdata]
  · intro i hi
    simp [hdata, List.getElem?_range hi]
  · rw [hdata, List.pairwise_map]
    exact (List.pairwise_lt_range N.toNat).imp (fun h => by exact_mod_cast h)

/-- Witness of C12 at `N = 100`. -/
theorem fixture_lifecycle_witness :
    malloc_serves malloc_fresh ∧ (fixture_upto 7).values.well_formed ∧
    (0 : Int) ≤ 100 ∧ (100 : Int) ≤ INT_MAX ∧
    ∃ fx p1, SetUp malloc_fresh (fixture_upto 7) 100 process_start = .ok (fx, p1) ∧
      fx.values.size = 100 ∧ (TearDown fx).values.data = [] := by
  have hwf : (fixture_upto 7).values.well_formed := fixture_of_well_formed _ (by decide)
  refine ⟨malloc_fresh_serves, hwf, by decide, by decide, ?_⟩
  obtain ⟨fx, p1, hset, _, _, hsize, _, _, _, htear, _⟩ :=
    fixture_lifecycle malloc_fresh malloc_fresh_serves (fixture_upto 7) hwf process_start 100
      (by decide) (by decide)
  exact ⟨fx, p1, hset, hsize, htear⟩

/-- C13: idempotence of the measurement, when `std::malloc` serves.

The result of a pass depends only on the elements of `values`: two fixtures
holding the same elements in well-formed vectors (whatever their capacity,
block and `loopIterations`) give, in every pass of every one of the five bodies, after
any number of earlier passes, from any counters and log and with any serving
allocator, one and the same list `r`.

A run leaves the fixture as it was: the `k` passes on the benchmark object, and
the whole body, hand back the fixture they were given.

A fresh `SetUp(N)` depends only on `N`: from any two well-formed fixtures and
any two process states it either ends in `std::length_error` both times (`N`
above `max_size()`) or returns both times with the same elements, so that
every pass of every run after it yields the same list. -/
theorem measurement_is_idempotent (malloc1 malloc2 : Libc)
    (hm1 : malloc_serves malloc1) (hm2 : malloc_serves malloc2)
    (fxA fxB : CollectionLoopFixture) (hwfA : fxA.values.well_formed)
    (hwfB : fxB.values.well_formed) (hdata : fxA.values.data = fxB.values.data)
    (fx1 fx2 : CollectionLoopFixture) (hwf1 : fx1.values.well_formed)
    (hwf2 : fx2.values.well_formed) (N : Int) :
    (∃ r : List Int, ∀ pa ∈ five_mechanisms malloc1, ∀ pb ∈ five_mechanisms malloc2,
      ∀ (j1 j2 : Nat) (pA pB : Process), ∃ sA qA sB qB,
        state_at_pass (pa fxA) j1 pA = .ok sA ∧ pa fxA sA = .ok (r, qA) ∧
        state_at_pass (pb fxB) j2 pB = .ok sB ∧ pb fxB sB = .ok (r, qB)) ∧
    (∀ pa ∈ five_mechanisms malloc1, ∀ (k : Nat) (pA : Process),
      (∃ q, run_object pa k (fxA, reset pA) = .ok (fxA, q)) ∧
      (∃ uc q, BenchmarkCase malloc1 pa k fxA pA = .ok (uc, fxA, q))) ∧
    (∀ p1 p2 : Process,
      (IntVector.max_size < int64_to_size_t N ∧
        SetUp malloc1 fx1 N p1 = .error .length_error ∧
        SetUp malloc2 fx2 N p2 = .error .length_error) ∨
      (∃ fa qa fb qb, SetUp malloc1 fx1 N p1 = .ok (fa, qa) ∧
        SetUp malloc2 fx2 N p2 = .ok (fb, qb) ∧
        fa.values.data = fb.values.data ∧
        ∃ r : List Int, ∀ pa ∈ five_mechanisms malloc1, ∀ pb ∈ five_mechanisms malloc2,
          ∀ (j1 j2 : Nat) (pA pB : Process), ∃ sA qA sB qB,
            state_at_pass (pa fa) j1 pA = .ok sA ∧ pa fa sA = .ok (r, qA) ∧
            state_at_pass (pb fb) j2 pB = .ok sB ∧ pb fb sB = .ok (r, qB))) := by
  have hsame : ∀ (fa fb : CollectionLoopFixture), fa.values.data = fb.values.data →
      fa.values.size ≤ IntVector.max_size → fb.values.size ≤ IntVector.max_size →
      ∀ pa ∈ five_mechanisms malloc1, ∀ pb ∈ five_mechanisms malloc2,
      ∀ (j1 j2 : Nat) (pA pB : Process), ∃ sA qA sB qB,
        state_at_pass (pa fa) j1 pA = .ok sA ∧
        pa fa sA = .ok (fa.values.data.filter even_test, qA) ∧
        state_at_pass (pb fb) j2 pB = .ok sB ∧
        pb fb sB = .ok (fa.values.data.filter even_test, qB) := by
    intro fa fb hd hs hsb pa hpa pb hpb j1 j2 pA pB
    obtain ⟨hita, _⟩ := five_mechanisms_passes malloc1 fa pa hpa
    obtain ⟨hitb, _⟩ := five_mechanisms_passes malloc2 fb pb hpb
    obtain ⟨_, _, _, hca⟩ := five_passes_closed malloc1 fa hm1 hs (pa fa) hita
    obtain ⟨_, _, _, hcb⟩ := five_passes_closed malloc2 fb hm2 hsb (pb fb) hitb
    obtain ⟨sA, _, hsA, _⟩ := state_at_pass_closed malloc1 fa hm1 hs (pa fa) hita j1 pA
    obtain ⟨sB, _, hsB, _⟩ := state_at_pass_closed malloc2 fb hm2 hsb (pb fb) hitb j2 pB
    exact ⟨sA, _, sB, _, hsA, hca sA, hsB, by rw [hd]; exact hcb sB⟩
  have hsize : fxA.values.size ≤ IntVector.max_size := le_trans hwfA.1 hwfA.2.1
  refine ⟨⟨_, hsame fxA fxB hdata hsize (le_trans hwfB.1 hwfB.2.1)⟩, ?_, ?_⟩
  · intro pa hpa k pA
    obtain ⟨hita, hbody⟩ := five_mechanisms_passes malloc1 fxA pa hpa
    obtain ⟨read, qr, _, hrun, _⟩ := benchmark_closed malloc1 fxA hm1 hsize _ hbody k pA
    obtain ⟨q, _, hcase, _⟩ := BenchmarkCase_after_read malloc1 hm1 pa k fxA pA read qr hrun
    obtain ⟨sk, _, hsk, _⟩ := state_at_pass_closed malloc1 fxA hm1 hsize (pa fxA) hita k pA
    simp only [state_at_pass] at hsk
    exact ⟨⟨sk, by rw [run_object_eq, hsk]⟩, _, q, hcase⟩
  · intro p1 p2
    by_cases hbig : IntVector.max_size < int64_to_size_t N
    · exact Or.inl ⟨hbig, SetUp_too_large malloc1 fx1 p1 N hbig,
        SetUp_too_large malloc2 fx2 p2 N hbig⟩
    · have hle : int64_to_size_t N ≤ IntVector.max_size := Nat.le_of_not_lt hbig
      obtain ⟨fa, qa, hseta, _, hda, hwa⟩ := SetUp_values malloc1 hm1 fx1 hwf1 p1 N hle
      obtain ⟨fb, qb, hsetb, _, hdb, hwb⟩ := SetUp_values malloc2 hm2 fx2 hwf2 p2 N hle
      have hd : fa.values.data = fb.values.data := by rw [hda, hdb]
      exact Or.inr ⟨fa, qa, fb, qb, hseta, hsetb, hd, _,
        hsame fa fb hd (le_trans hwa.1 hwa.2.1) (le_trans hwb.1 hwb.2.1)⟩

/-- Witness of C13: two fixtures holding `[0, 1, 2]` in blocks of different
capacity, and `SetUp(10)` from two different fixtures. -/
theorem measurement_is_idempotent_witness :
    malloc_serves malloc_fresh ∧
    (fixture_of [0, 1, 2]).values.well_formed ∧ fixture_roomy.values.well_formed ∧
    (fixture_of [0, 1, 2]).values.data = fixture_roomy.values.data ∧
    fixture_start.values.well_formed ∧ (fixture_upto 7).values.well_formed ∧
    ∃ r : List Int, ∀ pa ∈ five_mechanisms malloc_fresh, ∀ pb ∈ five_mechanisms malloc_fresh,
      ∀ (j1 j2 : Nat) (pA pB : Process), ∃ sA qA sB qB,
        state_at_pass (pa (fixture_of [0, 1, 2])) j1 pA = .ok sA ∧
        pa (fixture_of [0, 1, 2]) sA = .ok (r, qA) ∧
        state_at_pass (pb fixture_roomy) j2 pB = .ok sB ∧
        pb fixture_roomy sB = .ok (r, qB) :=
  ⟨malloc_fresh_serves, by decide, by decide, rfl, fixture_start_well_formed,
    fixture_of_well_formed _ (by decide),
    (measurement_is_idempotent malloc_fresh malloc_fresh malloc_fresh_serves malloc_fresh_serves
      (fixture_of [0, 1, 2])
      fixture_roomy (by decide) (by decide) rfl fixture_start (fixture_upto 7) fixture_start_well_formed
      (fixture_of_well_formed _ (by decide)) 10).1⟩

/-- C14: output size.  For every `N` with `0 ≤ N ≤ INT_MAX`, when `std::malloc`
serves and the fixture holds a well-formed vector, each of the five passes
over the input `SetUp(N)` built returns a result of exactly
`⌈N / 2⌉ = (N + 1) / 2` elements, whose last element, when `N ≥ 1`, is
`2 * ((N + 1) / 2 - 1)`. -/
theorem output_size (malloc : Libc) (hm : malloc_serves malloc)
    (fx0 : CollectionLoopFixture) (hwf : fx0.values.well_formed) (p0 : Process) (N : Int)
    (h0 : 0 ≤ N) (hN : N ≤ INT_MAX) :
    ∃ fx p1, SetUp malloc fx0 N p0 = .ok (fx, p1) ∧
      ∀ (p : Process), ∀ iteration ∈ five_passes malloc fx,
        ∃ r q, iteration p = .ok (r, q) ∧ r.length = (N.toNat + 1) / 2 ∧
          (1 ≤ N.toNat →
            r.getLast? = some (2 * ((((N.toNat + 1) / 2 - 1 : Nat)) : Int))) := by
  obtain ⟨fx, p1, hset, _, hdata, hwf1⟩ := SetUp_data malloc hm fx0 hwf p0 N h0 hN
  have hsize : fx.values.size ≤ IntVector.max_size := le_trans hwf1.1 hwf1.2.1
  refine ⟨fx, p1, hset, fun p iteration hit => ?_⟩
  obtain ⟨visit, _, _, hiter⟩ := five_passes_closed malloc fx hm hsize iteration hit
  refine ⟨_, _, hiter p, ?_, ?_⟩
  · rw [hdata, filter_range_evens, evens_length]
  · intro h1
    rw [hdata, filter_range_evens, evens_getLast _ h1]

/-- Witness of C14 at `N = 100`: fifty elements, the last one 98. -/
theorem output_size_witness :
    malloc_serves malloc_fresh ∧ fixture_start.values.well_formed ∧
    (0 : Int) ≤ 100 ∧ (100 : Int) ≤ INT_MAX ∧
    ∃ fx p1, SetUp malloc_fresh fixture_start 100 process_start = .ok (fx, p1) ∧
      ∀ (p : Process), ∀ iteration ∈ five_passes malloc_fresh fx,
        ∃ r q, iteration p = .ok (r, q) ∧ r.length = 50 ∧ r.getLast? = some 98 := by
  refine ⟨malloc_fresh_serves, fixture_start_well_formed, by decide, by decide, ?_⟩
  obtain ⟨fx, p1, hset, hall⟩ :=
    output_size malloc_fresh malloc_fresh_serves fixture_start fixture_start_well_formed
      process_start 100 (by decide) (by decide)
  refine ⟨fx, p1, hset, fun p iteration hit => ?_⟩
  obtain ⟨r, q, hrun, hlen, hlast⟩ := hall p iteration hit
  exact ⟨r, q, hrun, hlen, hlast (by decide)⟩

/-- C15: in the index-based body `loop`, for every well-formed input vector, when
`std::malloc` serves, the pass returns normally; the bounds-checked reads it
makes are `values.at(0)`, `values.at(1)`, ..., `values.at(size - 1)` in this
order: each index once, in increasing order, `size` reads in all, every one
with `i < values.size()`, and each such read returns an element rather than
raising `out_of_range`. -/
theorem index_loop_stays_in_bounds (malloc : Libc) (hm : malloc_serves malloc)
    (fx : CollectionLoopFixture) (hwf : fx.values.well_formed)
    (p : Process) :
    ∃ r q during, loop_iteration malloc fx p = .ok (r, q) ∧
      q.trace = p.trace ++ during ∧
      at_indices during = List.range fx.values.size ∧
      (at_indices during).length = fx.values.size ∧
      List.Pairwise (fun i j => i < j) (at_indices during) ∧
      (∀ i ∈ at_indices during, i < fx.values.size) ∧
      (∀ i ∈ at_indices during, ∀ p1 : Process,
        ∃ v p2, fx.values.at_ i p1 = .ok (v, p2) ∧ fx.values.data[i]? = some v) := by
  have hsize : fx.values.size ≤ IntVector.max_size := le_trans hwf.1 hwf.2.1
  have hidx : ∀ tail : List Event, at_indices tail = [] →
      at_indices (loop_events 0 fx.values.data ++ tail) = List.range fx.values.size := by
    intro tail htail
    rw [at_indices_append, at_indices_loop_events, htail, List.append_nil,
      List.range_eq_range']
    rfl
  have hspec := loop_iteration_spec malloc fx hm hsize p
  by_cases hn : 0 < fx.values.data.length
  · let ptr := malloc p.trace (fx.values.data.length * sizeof_int)
    have hdur : at_indices (Event.malloc (fx.values.data.length * sizeof_int) ptr ::
        loop_events 0 fx.values.data ++ (if ptr = nullptr then [] else [Event.free ptr])) =
        List.range fx.values.size := by
      have htail : at_indices (if ptr = nullptr then [] else [Event.free ptr]) = [] := by
        split <;> simp [at_indices]
      have := hidx _ htail
      simpa [at_indices] using this
    refine ⟨_, _, _, hspec, ?_, hdur, ?_, ?_, ?_, ?_⟩
    · simp [pass_result, hn, ptr]
    · rw [hdur, List.length_range]
    · rw [hdur]; exact List.pairwise_lt_range _
    · intro i hi
      rw [hdur] at hi
      exact List.mem_range.mp hi
    · intro i hi p1
      rw [hdur] at hi
      have hlt : i < fx.values.data.length := List.mem_range.mp hi
      exact ⟨fx.values.data[i], p1.observe (Event.at_ i), by simp [IntVector.at_, hlt],
        by simp [hlt]⟩
  · have h0 : fx.values.data = [] := by simpa using hn
    refine ⟨_, _, [], hspec, ?_, ?_, ?_, ?_, ?_, ?_⟩
    · simp [pass_result, h0, loop_events]
    · simp [at_indices, IntVector.size, h0]
    · simp [at_indices, IntVector.size, h0]
    · simp [at_indices]
    · simp [at_indices]
    · simp [at_indices]

/-- Witness of C15: the input `[-3, -2, 4, 7, -2]` is read at the indices
`0, 1, 2, 3, 4`. -/
theorem index_loop_stays_in_bounds_witness :
    malloc_serves malloc_fresh ∧
    (fixture_of [-3, -2, 4, 7, -2]).values.well_formed ∧
    ∃ r q during,
      loop_iteration malloc_fresh (fixture_of [-3, -2, 4, 7, -2]) process_start = .ok (r, q) ∧
      q.trace = process_start.trace ++ during ∧
      at_indices during = [0, 1, 2, 3, 4] := by
  refine ⟨malloc_fresh_serves, by decide, ?_⟩
  obtain ⟨r, q, during, hrun, ht, hidx, _⟩ :=
    index_loop_stays_in_bounds malloc_fresh malloc_fresh_serves
      (fixture_of [-3, -2, 4, 7, -2]) (by decide) process_start
  exact ⟨r, q, during, hrun, ht, by rw [hidx]; decide⟩

/-- C16: the capacity hint is never exceeded and the five mechanisms allocate
alike.  For every well-formed input vector of length `n` and each of the five
passes, when `std::malloc` serves: the result has at most `n` elements and at
every point of the pass at most `n` `push_back` calls have been made, so none
of them finds the block full; the pass calls the allocator exactly once when
`n > 0`, for `n * sizeof(int)` bytes and before anything else, and not at all
when `n = 0`; the counters move by exactly that.  For every iteration count,
the five benchmark bodies read the same two values and record the same
`AllocCount` and the same `AllocBytes`. -/
theorem capacity_hint_never_exceeded (malloc : Libc) (hm : malloc_serves malloc)
    (fx : CollectionLoopFixture) (hwf : fx.values.well_formed) :
    (∀ (p : Process), ∀ iteration ∈ five_passes malloc fx,
      ∃ r q during, iteration p = .ok (r, q) ∧ q.trace = p.trace ++ during ∧
        r.length ≤ fx.values.size ∧
        push_back_count during = r.length ∧
        (∀ pre suf : List Event, during = pre ++ suf →
          push_back_count pre ≤ fx.values.size) ∧
        (0 < fx.values.size →
          (∃ ptr rest, during = Event.malloc (fx.values.size * sizeof_int) ptr :: rest ∧
            malloc_calls rest = 0) ∧
          malloc_calls during = 1 ∧ malloc_bytes during = fx.values.size * sizeof_int ∧
          q.allocationCount = (p.allocationCount + 1) % 2 ^ 64 ∧
          q.allocatedBytes = (p.allocatedBytes + fx.values.size * sizeof_int) % 2 ^ 64) ∧
        (fx.values.size = 0 →
          malloc_calls during = 0 ∧ q.allocationCount = p.allocationCount ∧
          q.allocatedBytes = p.allocatedBytes)) ∧
    (∀ k : Nat, ∃ rep : Counters, ∀ (p : Process), ∀ body ∈ five_benchmarks malloc fx,
      ∃ q, body k p = .ok (rep, q)) ∧
    (∀ k : Nat, ∃ uc : UserCounters, ∀ (p : Process), ∀ pass ∈ five_mechanisms malloc,
      ∃ q, BenchmarkCase malloc pass k fx p = .ok (uc, fx, q)) ∧
    (∀ (p : Process), ∀ body ∈ five_benchmarks malloc fx,
      ∃ rep q, body 1 p = .ok (rep, q) ∧ rep.AllocCount = pass_allocs fx.values.size ∧
        rep.AllocBytes = (fx.values.size * sizeof_int) % 2 ^ 64) := by
  have hsize : fx.values.size ≤ IntVector.max_size := le_trans hwf.1 hwf.2.1
  refine ⟨?_, ?_, ?_, ?_⟩
  · intro p iteration hit
    obtain ⟨visit, hv, hpush, hiter⟩ := five_passes_closed malloc fx hm hsize iteration hit
    have hlen : (fx.values.data.filter even_test).length ≤ fx.values.size :=
      List.length_filter_le _ _
    by_cases hn : 0 < fx.values.data.length
    · have hfree : ∀ ptr : Ptr, malloc_calls (if ptr = nullptr then [] else [Event.free ptr]) = 0 ∧
          malloc_bytes (if ptr = nullptr then [] else [Event.free ptr]) = 0 ∧
          push_back_count (if ptr = nullptr then [] else [Event.free ptr]) = 0 := by
        intro ptr
        split <;> simp [malloc_calls, malloc_bytes, push_back_count]
      have hcount : push_back_count
          (Event.malloc (fx.values.data.length * sizeof_int)
              (malloc p.trace (fx.values.data.length * sizeof_int)) :: (visit ++
            (if malloc p.trace (fx.values.data.length * sizeof_int) = nullptr then []
              else [Event.free (malloc p.trace (fx.values.data.length * sizeof_int))]))) =
          (fx.values.data.filter even_test).length := by
        show push_back_count (visit ++ _) = _
        rw [push_back_count_append, hpush, (hfree _).2.2, Nat.add_zero]
      refine ⟨_, _, _, hiter p, ?_, hlen, hcount, ?_, ?_, ?_⟩
      · simp [pass_result, hn]
      · intro pre suf hsplit
        have h := hcount
        rw [hsplit, push_back_count_append] at h
        omega
      · intro _
        refine ⟨⟨_, _, rfl, ?_⟩, ?_, ?_, ?_, ?_⟩
        · rw [malloc_calls_append, hv.1, (hfree _).1]
        · show malloc_calls (visit ++ _) + 1 = 1
          rw [malloc_calls_append, hv.1, (hfree _).1]
        · show malloc_bytes (visit ++ _) + fx.values.data.length * sizeof_int =
            fx.values.data.length * sizeof_int
          rw [malloc_bytes_append, hv.2, (hfree _).2.1]
          omega
        · simp [pass_result, hn, ULLONG_RANGE]
        · simp [pass_result, hn, ULLONG_RANGE, IntVector.size]
      · intro h0
        simp only [IntVector.size] at h0
        omega
    · refine ⟨_, _, visit, hiter p, ?_, hlen, hpush, ?_, ?_, ?_⟩
      · simp [pass_result, hn]
      · intro pre suf hsplit
        have h := hpush
        rw [hsplit, push_back_count_append] at h
        omega
      · intro hpos
        exact absurd hpos hn
      · intro _
        exact ⟨hv.1, by simp [pass_result, hn], by simp [pass_result, hn]⟩
  · intro k
    refine ⟨{ AllocCount := (k * pass_allocs fx.values.size) % ULLONG_RANGE,
              AllocBytes := (k * (fx.values.size * sizeof_int)) % ULLONG_RANGE,
              iterations := k }, fun p body hmem => ?_⟩
    obtain ⟨rep, q, _, hrun, _, _, _, hc, hb, hk⟩ :=
      benchmark_closed malloc fx hm hsize body hmem k p
    refine ⟨q, ?_⟩
    rw [hrun]
    cases rep
    simp only at hc hb hk
    rw [hc, hb, hk]
  · intro k
    refine ⟨{ AllocCount := to_double ((k * pass_allocs fx.values.size) % ULLONG_RANGE),
              AllocBytes := to_double ((k * (fx.values.size * sizeof_int)) % ULLONG_RANGE) },
      fun p pass hmem => ?_⟩
    obtain ⟨_, hbody⟩ := five_mechanisms_passes malloc fx pass hmem
    obtain ⟨rep, qr, _, hrun, _, _, _, hc, hb, _⟩ :=
      benchmark_closed malloc fx hm hsize _ hbody k p
    obtain ⟨q, _, hcase, _⟩ := BenchmarkCase_after_read malloc hm pass k fx p rep qr hrun
    refine ⟨q, ?_⟩
    rw [hcase, hc, hb]
  · intro p body hmem
    obtain ⟨rep, q, _, hrun, _, _, _, hc, hb, _⟩ :=
      benchmark_closed malloc fx hm hsize body hmem 1 p
    refine ⟨rep, q, hrun, ?_, ?_⟩
    · rw [hc, Nat.one_mul]
      apply Nat.mod_eq_of_lt
      unfold pass_allocs ULLONG_RANGE
      split <;> decide
    · rw [hb, Nat.one_mul]
      rfl

/-- Witness of C16: over `[0, 1, 2]` and three iterations the five bodies
record the same two values. -/
theorem capacity_hint_never_exceeded_witness :
    malloc_serves malloc_fresh ∧
    (fixture_of [0, 1, 2]).values.well_formed ∧
    ∃ uc : UserCounters, ∀ (p : Process), ∀ pass ∈ five_mechanisms malloc_fresh,
      ∃ q, BenchmarkCase malloc_fresh pass 3 (fixture_of [0, 1, 2]) p =
        .ok (uc, fixture_of [0, 1, 2], q) :=
  ⟨malloc_fresh_serves, by decide,
    (capacity_hint_never_exceeded malloc_fresh malloc_fresh_serves (fixture_of [0, 1, 2])
      (by decide)).2.2.1 3⟩

end CollectionLoop
